import Mathlib

/-
Verification of the Rustastic NetworkInitializer boot sequence
(src/network_initializer.rs) against its specification.

The Rust program is shallowly embedded: crossbeam channels are identified by
the order in which `unbounded()` is called (a Nat counter threaded through the
channel-creation loops), `Sender`/`Receiver` values carry the id of the channel
they belong to (cloning a Rust `Sender`/`Receiver` yields a value on the same
channel, hence an equal value here), `HashMap` is an association list with
overwrite-on-insert (`insertA`) and key lookup (`getA`); map iteration order is
never observed by the program except through single-key filters, which `getA`
reproduces.  Panics (`panic!`/`.unwrap()` on `None`) become `Except.error` with
a constructor per panic site.  Node ids are `u8` in the source and only ever
compared for equality, so they are embedded as `Nat`.  The `pdr` field is an
`f32` that the initializer only passes through untouched; it is carried as an
opaque `Nat`.
-/

namespace NetInit

/-- A producer end of a crossbeam channel, identified by the channel id.
Cloning a sender yields an equal value. -/
structure Sender where
  ch : Nat
deriving DecidableEq, Repr, Inhabited

/-- A consumer end of a crossbeam channel, identified by the channel id.
Cloning a receiver yields an equal value (crossbeam receivers are clonable). -/
structure Receiver where
  ch : Nat
deriving DecidableEq, Repr, Inhabited

/-- Association list standing for a Rust `HashMap<NodeId, α>`. -/
abbrev AList (α : Type) := List (Nat × α)

/-- Key lookup, `HashMap::get`. -/
def getA {α : Type} : AList α → Nat → Option α
  | [], _ => none
  | (k', v) :: rest, k => if k' = k then some v else getA rest k

/-- Overwrite-on-insert, `HashMap::insert` (the program never reads the
returned old value). -/
def insertA {α : Type} : AList α → Nat → α → AList α
  | [], k, v => [(k, v)]
  | (k', v') :: rest, k, v =>
      if k' = k then (k, v) :: rest else (k', v') :: insertA rest k v

/-- The keys of a map. -/
def keysA {α : Type} (m : AList α) : List Nat := m.map Prod.fst

/-- `config.drone` entry: `wg_2024::config::Drone`. -/
structure ConfigDrone where
  id : Nat
  connected_node_ids : List Nat
  pdr : Nat
deriving DecidableEq, Repr, Inhabited

/-- `config.client` entry. -/
structure ConfigClient where
  id : Nat
  connected_drone_ids : List Nat
deriving DecidableEq, Repr, Inhabited

/-- `config.server` entry. -/
structure ConfigServer where
  id : Nat
  connected_drone_ids : List Nat
deriving DecidableEq, Repr, Inhabited

/-- The parsed `Config` (`src/config.toml` after `toml::from_str`). -/
structure Config where
  drone : List ConfigDrone
  client : List ConfigClient
  server : List ConfigServer
deriving DecidableEq, Repr, Inhabited

/-- All declared node ids, drones then clients then servers. -/
def declaredIds (cfg : Config) : List Nat :=
  cfg.drone.map (·.id) ++ cfg.client.map (·.id) ++ cfg.server.map (·.id)

/-- Every neighbor reference names a declared node. -/
def validTopology (cfg : Config) : Prop :=
  (∀ d ∈ cfg.drone, ∀ nb ∈ d.connected_node_ids, nb ∈ declaredIds cfg) ∧
  (∀ c ∈ cfg.client, ∀ nb ∈ c.connected_drone_ids, nb ∈ declaredIds cfg) ∧
  (∀ s ∈ cfg.server, ∀ nb ∈ s.connected_drone_ids, nb ∈ declaredIds cfg)

instance (cfg : Config) : Decidable (validTopology cfg) := by
  unfold validTopology; infer_instance

/-- No adjacency list repeats a neighbor. -/
def nodupAdjacency (cfg : Config) : Prop :=
  (∀ d ∈ cfg.drone, d.connected_node_ids.Nodup) ∧
  (∀ c ∈ cfg.client, c.connected_drone_ids.Nodup) ∧
  (∀ s ∈ cfg.server, s.connected_drone_ids.Nodup)

instance (cfg : Config) : Decidable (nodupAdjacency cfg) := by
  unfold nodupAdjacency; infer_instance

/-- One constructor per panic site of the boot sequence (each `panic!` or
`.unwrap()` on a `None` map lookup), carrying the offending node id. -/
inductive BuildError where
  | packetReceiverNotFound (id : Nat)
  | commandReceiverNotFound (id : Nat)
  | packetSenderNotFound (id : Nat)
  | commandSenderNotFound (id : Nat)
  | noFactoryDefined (id : Nat)
  | neighborSenderMissing (id : Nat)
  | clientCommandRecvMissing (id : Nat)
  | clientPacketRecvMissing (id : Nat)
  | serverPacketRecvMissing (id : Nat)
  | serverEventRecvMissing (id : Nat)
deriving DecidableEq, Repr, Inhabited

/-- Registered drone implementation variants.  The live registry instantiates
a single variant ten times (the other blocks are commented out in the source). -/
inductive DroneVariant where
  | rustRoveri
deriving DecidableEq, Repr, Inhabited

/-- The `drone_factories` vector: ten registered constructors, all
`drone_factory::<rust_roveri::RustRoveri>()` (lines 313-322). -/
def drone_factories : List DroneVariant :=
  [.rustRoveri, .rustRoveri, .rustRoveri, .rustRoveri, .rustRoveri,
   .rustRoveri, .rustRoveri, .rustRoveri, .rustRoveri, .rustRoveri]

/-- Output of the drone channel-creation loop (lines 148-161). -/
structure DroneChanOut where
  ctr : Nat
  packet_send : AList Sender
  packet_recv : AList Receiver
  command_send : AList Sender
  command_recv : AList Receiver
deriving DecidableEq, Repr

/-- Channel-creation loop for drones (lines 148-161): per drone, one packet
channel then one command channel, inserted into the four tables. -/
def droneChannels : List ConfigDrone → Nat → AList Sender → AList Receiver →
    AList Sender → AList Receiver → DroneChanOut
  | [], k, ps, pr, cs, cr => ⟨k, ps, pr, cs, cr⟩
  | d :: rest, k, ps, pr, cs, cr =>
      droneChannels rest (k + 2)
        (insertA ps d.id ⟨k⟩) (insertA pr d.id ⟨k⟩)
        (insertA cs d.id ⟨k + 1⟩) (insertA cr d.id ⟨k + 1⟩)

/-- Output of the server channel-creation loop (lines 163-191). -/
structure ServerChanOut where
  ctr : Nat
  packet_send : AList Sender
  packet_recv : AList Receiver
  comm_server_send : AList (Sender × Sender)
  comm_server_recv : AList Receiver
deriving DecidableEq, Repr

/-- Channel-creation loop for servers (lines 173-191): per server, one
command channel then one packet channel; `comm_server_recv` maps every server
id to a clone of the one shared `comm_server_event_recv`. -/
def serverChannels (evRecv : Receiver) : List ConfigServer → Nat →
    AList Sender → AList Receiver → AList (Sender × Sender) → AList Receiver → ServerChanOut
  | [], k, ps, pr, css, csr => ⟨k, ps, pr, css, csr⟩
  | s :: rest, k, ps, pr, css, csr =>
      serverChannels evRecv rest (k + 2)
        (insertA ps s.id ⟨k + 1⟩) (insertA pr s.id ⟨k + 1⟩)
        (insertA css s.id (⟨k⟩, ⟨k + 1⟩)) (insertA csr s.id evRecv)

/-- Output of the client channel-creation loop (lines 193-230). -/
structure ClientChanOut where
  ctr : Nat
  packet_send : AList Sender
  packet_recv : AList Receiver
  cclient_send : AList (Sender × Sender)
  cclient_recv : AList Receiver
  mclient_send : AList (Sender × Sender)
  mclient_recv : AList Receiver
deriving DecidableEq, Repr

/-- Channel-creation loop for clients (lines 206-230): the first
`half = client.len() / 2` clients (by running count) get chat-client command
channels, the rest media-client command channels; both branches create one
command channel then one packet channel. -/
def clientChannels (half : Nat) : List ConfigClient → Nat → Nat →
    AList Sender → AList Receiver → AList (Sender × Sender) → AList Receiver →
    AList (Sender × Sender) → AList Receiver → ClientChanOut
  | [], _, k, ps, pr, ccs, ccr, mcs, mcr => ⟨k, ps, pr, ccs, ccr, mcs, mcr⟩
  | c :: rest, cnt, k, ps, pr, ccs, ccr, mcs, mcr =>
      if cnt < half then
        clientChannels half rest (cnt + 1) (k + 2)
          (insertA ps c.id ⟨k + 1⟩) (insertA pr c.id ⟨k + 1⟩)
          (insertA ccs c.id (⟨k⟩, ⟨k + 1⟩)) (insertA ccr c.id ⟨k⟩) mcs mcr
      else
        clientChannels half rest (cnt + 1) (k + 2)
          (insertA ps c.id ⟨k + 1⟩) (insertA pr c.id ⟨k + 1⟩)
          ccs ccr (insertA mcs c.id (⟨k⟩, ⟨k + 1⟩)) (insertA mcr c.id ⟨k⟩)

/-- A constructed drone actor (`T::new(id, event_send.clone(),
command_recv.clone(), packet_recv.clone(), packet_send, pdr)`, lines 80-87). -/
structure DroneActor where
  id : Nat
  variant : DroneVariant
  event_send : Sender
  command_recv : Receiver
  packet_recv : Receiver
  packet_send : AList Sender
  pdr : Nat
deriving DecidableEq, Repr

/-- A constructed `ChatClient` (lines 430-436). -/
structure ChatClientActor where
  id : Nat
  event_send : Sender
  command_recv : Receiver
  packet_recv : Receiver
  packet_send : AList Sender
deriving DecidableEq, Repr

/-- A constructed `MediaClient` (lines 442-448). -/
structure MediaClientActor where
  id : Nat
  event_send : Sender
  command_recv : Receiver
  packet_recv : Receiver
  packet_send : AList Sender
deriving DecidableEq, Repr

/-- A constructed `CommunicationServer` (lines 477-483), field order as the
constructor arguments: the fifth argument is `comm_server_recv.get(&server.id)`,
a clone of the shared server-event receiver. -/
structure CommServerActor where
  id : Nat
  packet_recv : Receiver
  packet_send : AList Sender
  event_send : Sender
  comm_server_recv : Receiver
deriving DecidableEq, Repr

/-- Neighbor-filtered packet-sender map of a drone (lines 67-76): for each
declared neighbor, the global table is filtered for that key; a neighbor with
no entry contributes nothing (no error is raised). -/
def dronePacketSend (ps : AList Sender) : List Nat → AList Sender → AList Sender
  | [], acc => acc
  | nb :: rest, acc =>
      match getA ps nb with
      | some sv => dronePacketSend ps rest (insertA acc nb sv)
      | none => dronePacketSend ps rest acc

/-- Neighbor packet-sender map of a client or server (lines 423-426 and
467-470): `packet_send.get(neighbor).unwrap()` — a missing neighbor entry is a
panic. -/
def neighborPacketSend (ps : AList Sender) : List Nat → AList Sender →
    Except BuildError (AList Sender)
  | [], acc => .ok acc
  | nb :: rest, acc =>
      match getA ps nb with
      | some sv => neighborPacketSend ps rest (insertA acc nb sv)
      | none => .error (.neighborSenderMissing nb)

/-- Drone generation loop (lines 376-404): the `n`-th drone entry takes the
`n`-th registered factory; the factory body (lines 62-96) looks up the packet
receiver, builds the neighbor sender map, looks up the command receiver; then
the drone's `(command_send, packet_send)` pair is recorded in
`drones_hashmap`. -/
def droneGen (es : Sender) (cr : AList Receiver) (ps : AList Sender)
    (pr : AList Receiver) (cs : AList Sender) :
    List ConfigDrone → Nat → List DroneActor → AList (Sender × Sender) →
    Except BuildError (List DroneActor × AList (Sender × Sender))
  | [], _, actors, dh => .ok (actors, dh)
  | d :: rest, n, actors, dh =>
      match drone_factories[n]? with
      | none => .error (.noFactoryDefined d.id)
      | some variant =>
          match getA pr d.id with
          | none => .error (.packetReceiverNotFound d.id)
          | some prc =>
              let psend := dronePacketSend ps d.connected_node_ids []
              match getA cr d.id with
              | none => .error (.commandReceiverNotFound d.id)
              | some crc =>
                  match getA ps d.id with
                  | none => .error (.packetSenderNotFound d.id)
                  | some pks =>
                      match getA cs d.id with
                      | none => .error (.commandSenderNotFound d.id)
                      | some cmds =>
                          droneGen es cr ps pr cs rest (n + 1)
                            (actors ++ [⟨d.id, variant, es, crc, prc, psend, d.pdr⟩])
                            (insertA dh d.id (cmds, pks))

/-- Drone part of the `neighbor` map (lines 410-412). -/
def droneNeighborMap : List ConfigDrone → AList (List Nat) → AList (List Nat)
  | [], nb => nb
  | d :: rest, nb => droneNeighborMap rest (insertA nb d.id d.connected_node_ids)

/-- Client generation loop (lines 421-457): per client, the neighbor sender
map is built first (with panicking lookups); then the first `half` clients in
declaration order become `ChatClient`s and the rest `MediaClient`s; each
client's adjacency is added to the `neighbor` map. -/
def clientGen (half : Nat) (ces mes : Sender) (ccr mcr : AList Receiver)
    (pr : AList Receiver) (ps : AList Sender) :
    List ConfigClient → Nat → List ChatClientActor → List MediaClientActor →
    AList (List Nat) →
    Except BuildError (List ChatClientActor × List MediaClientActor × AList (List Nat))
  | [], _, chats, medias, nb => .ok (chats, medias, nb)
  | c :: rest, cnt, chats, medias, nb =>
      match neighborPacketSend ps c.connected_drone_ids [] with
      | .error e => .error e
      | .ok cps =>
          if cnt < half then
            match getA ccr c.id with
            | none => .error (.clientCommandRecvMissing c.id)
            | some crc =>
                match getA pr c.id with
                | none => .error (.clientPacketRecvMissing c.id)
                | some prc =>
                    clientGen half ces mes ccr mcr pr ps rest (cnt + 1)
                      (chats ++ [⟨c.id, ces, crc, prc, cps⟩]) medias
                      (insertA nb c.id c.connected_drone_ids)
          else
            match getA mcr c.id with
            | none => .error (.clientCommandRecvMissing c.id)
            | some crc =>
                match getA pr c.id with
                | none => .error (.clientPacketRecvMissing c.id)
                | some prc =>
                    clientGen half ces mes ccr mcr pr ps rest (cnt + 1)
                      chats (medias ++ [⟨c.id, mes, crc, prc, cps⟩])
                      (insertA nb c.id c.connected_drone_ids)

/-- Server generation loop (lines 465-490): every server becomes a
`CommunicationServer` (the content-text/content-media branches are commented
out); the constructor receives the server's packet receiver and a clone of the
shared server-event receiver. -/
def serverGen (ses : Sender) (csr : AList Receiver) (pr : AList Receiver)
    (ps : AList Sender) :
    List ConfigServer → List CommServerActor → AList (List Nat) →
    Except BuildError (List CommServerActor × AList (List Nat))
  | [], servers, nb => .ok (servers, nb)
  | s :: rest, servers, nb =>
      match neighborPacketSend ps s.connected_drone_ids [] with
      | .error e => .error e
      | .ok sps =>
          match getA pr s.id with
          | none => .error (.serverPacketRecvMissing s.id)
          | some prc =>
              match getA csr s.id with
              | none => .error (.serverEventRecvMissing s.id)
              | some erc =>
                  serverGen ses csr pr ps rest
                    (servers ++ [⟨s.id, prc, sps, ses, erc⟩])
                    (insertA nb s.id s.connected_drone_ids)

/-- State moved into `SimulationController::new` (lines 502-515), field order
as the constructor arguments. -/
structure SimulationControllerState where
  drones_hashmap : AList (Sender × Sender)
  event_recv : Receiver
  neighbor : AList (List Nat)
  event_send : Sender
  gui_event_send : Sender
  gui_command_recv : Receiver
  cclient_send : AList (Sender × Sender)
  cclient_event_recv : Receiver
  mclient_send : AList (Sender × Sender)
  mclient_event_recv : Receiver
  comm_server_send : AList (Sender × Sender)
  comm_server_event_recv : Receiver
deriving DecidableEq, Repr

/-- Everything alive in `run()` once construction is complete and threads are
about to be spawned: the builder tables (still in scope until `run` returns),
the actor population, the controller state, and the GUI ends. -/
structure BuildResult where
  packet_send : AList Sender
  packet_recv : AList Receiver
  command_send : AList Sender
  command_recv : AList Receiver
  cclient_recv : AList Receiver
  mclient_recv : AList Receiver
  comm_server_recv : AList Receiver
  drones : List DroneActor
  chat_clients : List ChatClientActor
  media_clients : List MediaClientActor
  communication_servers : List CommServerActor
  controller : SimulationControllerState
  gui_send : Sender
  gui_event_recv : Receiver
  gui_command_send : Sender
deriving DecidableEq, Repr

/-- Channel tables after the drone channel loop.  The first `unbounded()`
call of `run()` (line 138) creates the drone-event channel, so that channel
has id 0 and the drone loop starts allocating at id 1. -/
def dOutOf (cfg : Config) : DroneChanOut :=
  droneChannels cfg.drone 1 [] [] [] []

/-- Channel tables after the server channel loop.  The server-event channel
(line 169) takes the next id after the drone loop; the server loop starts
right after it. -/
def sOutOf (cfg : Config) : ServerChanOut :=
  serverChannels ⟨(dOutOf cfg).ctr⟩ cfg.server ((dOutOf cfg).ctr + 1)
    (dOutOf cfg).packet_send (dOutOf cfg).packet_recv [] []

/-- Number of chat clients: `let half = config.client.len() / 2` (line 206). -/
def halfOf (cfg : Config) : Nat := cfg.client.length / 2

/-- Channel tables after the client channel loop.  The chat- and media-client
event channels (lines 203-204) take the two ids after the server loop; the
client loop starts right after them. -/
def cOutOf (cfg : Config) : ClientChanOut :=
  clientChannels (halfOf cfg) cfg.client 0 ((sOutOf cfg).ctr + 2)
    (sOutOf cfg).packet_send (sOutOf cfg).packet_recv [] [] [] []

/-- The construction part of `run()` (lines 129-515): channel creation, actor
generation, controller assembly.  Channel ids are assigned by `unbounded()`
call order: id 0 is the drone-event channel (line 138), then two channels per
drone, the server-event channel (line 169), two per server, the chat- and
media-client event channels (lines 203-204), two per client, and finally the
two GUI channels (lines 493-494, after all generation loops). -/
def buildModel (cfg : Config) : Except BuildError BuildResult :=
  match droneGen ⟨0⟩ (dOutOf cfg).command_recv (cOutOf cfg).packet_send
      (cOutOf cfg).packet_recv (dOutOf cfg).command_send cfg.drone 0 [] [] with
  | .error e => .error e
  | .ok (drones, drones_hashmap) =>
      match clientGen (halfOf cfg) ⟨(sOutOf cfg).ctr⟩ ⟨(sOutOf cfg).ctr + 1⟩
          (cOutOf cfg).cclient_recv (cOutOf cfg).mclient_recv
          (cOutOf cfg).packet_recv (cOutOf cfg).packet_send
          cfg.client 0 [] [] (droneNeighborMap cfg.drone []) with
      | .error e => .error e
      | .ok (chats, medias, nb1) =>
          match serverGen ⟨(dOutOf cfg).ctr⟩ (sOutOf cfg).comm_server_recv
              (cOutOf cfg).packet_recv (cOutOf cfg).packet_send
              cfg.server [] nb1 with
          | .error e => .error e
          | .ok (servers, nb2) =>
              .ok
                { packet_send := (cOutOf cfg).packet_send
                  packet_recv := (cOutOf cfg).packet_recv
                  command_send := (dOutOf cfg).command_send
                  command_recv := (dOutOf cfg).command_recv
                  cclient_recv := (cOutOf cfg).cclient_recv
                  mclient_recv := (cOutOf cfg).mclient_recv
                  comm_server_recv := (sOutOf cfg).comm_server_recv
                  drones
                  chat_clients := chats
                  media_clients := medias
                  communication_servers := servers
                  controller :=
                    { drones_hashmap
                      event_recv := ⟨0⟩
                      neighbor := nb2
                      event_send := ⟨0⟩
                      gui_event_send := ⟨(cOutOf cfg).ctr + 1⟩
                      gui_command_recv := ⟨(cOutOf cfg).ctr⟩
                      cclient_send := (cOutOf cfg).cclient_send
                      cclient_event_recv := ⟨(sOutOf cfg).ctr⟩
                      mclient_send := (cOutOf cfg).mclient_send
                      mclient_event_recv := ⟨(sOutOf cfg).ctr + 1⟩
                      comm_server_send := (sOutOf cfg).comm_server_send
                      comm_server_event_recv := ⟨(dOutOf cfg).ctr⟩ }
                  gui_send := ⟨(cOutOf cfg).ctr + 1⟩
                  gui_event_recv := ⟨(cOutOf cfg).ctr + 1⟩
                  gui_command_send := ⟨(cOutOf cfg).ctr⟩ }

/-- Default (empty) build result, used only to totalize `buildD`. -/
def emptyBuildResult : BuildResult :=
  { packet_send := [], packet_recv := [], command_send := [], command_recv := []
    cclient_recv := [], mclient_recv := [], comm_server_recv := []
    drones := [], chat_clients := [], media_clients := []
    communication_servers := []
    controller :=
      { drones_hashmap := [], event_recv := ⟨0⟩, neighbor := [], event_send := ⟨0⟩
        gui_event_send := ⟨0⟩, gui_command_recv := ⟨0⟩, cclient_send := []
        cclient_event_recv := ⟨0⟩, mclient_send := [], mclient_event_recv := ⟨0⟩
        comm_server_send := [], comm_server_event_recv := ⟨0⟩ }
    gui_send := ⟨0⟩, gui_event_recv := ⟨0⟩, gui_command_send := ⟨0⟩ }

/-- Total projection of the build outcome. -/
def buildD (cfg : Config) : BuildResult :=
  match buildModel cfg with
  | .ok r => r
  | .error _ => emptyBuildResult

/-- Whether the build reaches thread spawning. -/
def buildOk (cfg : Config) : Bool :=
  match buildModel cfg with
  | .ok _ => true
  | .error _ => false

/-- One observable step of the orchestration part of `run()` (lines 517-593). -/
inductive Step where
  | spawnController
  | spawnDrone (id : Nat)
  | spawnChatClient (id : Nat)
  | spawnMediaClient (id : Nat)
  | spawnCommServer (id : Nat)
  | sendTopology (drones : List ConfigDrone) (clients : List ConfigClient)
      (servers : List ConfigServer)
  | guiLoop
  | joinDrone (id : Nat)
  | joinChatClient (id : Nat)
  | joinMediaClient (id : Nat)
  | joinCommServer (id : Nat)
  | joinController
deriving DecidableEq, Repr

/-- Thread spawns in program order (lines 517-556): controller, drones, chat
clients, media clients, communication servers. -/
def spawnSteps (r : BuildResult) : List Step :=
  [Step.spawnController]
    ++ r.drones.map (fun a => Step.spawnDrone a.id)
    ++ r.chat_clients.map (fun a => Step.spawnChatClient a.id)
    ++ r.media_clients.map (fun a => Step.spawnMediaClient a.id)
    ++ r.communication_servers.map (fun a => Step.spawnCommServer a.id)

/-- The threads `run()` spawns for a configuration; none when construction
panics first. -/
def spawnedUnits (cfg : Config) : List Step :=
  match buildModel cfg with
  | .error _ => []
  | .ok r => spawnSteps r

/-- The pre-join orchestration trace: thread spawns, then the one-shot
`GUIEvents::Topology(config.drone, config.client, config.server)` send
(lines 561-567), then the foreground `eframe::run_native` loop (line 570). -/
def bootTrace (cfg : Config) : List Step :=
  match buildModel cfg with
  | .error _ => []
  | .ok r => spawnSteps r ++ [Step.sendTopology cfg.drone cfg.client cfg.server, Step.guiLoop]

/-- Join order at shutdown (lines 576-593): drone handles, chat-client
handles, media-client handles, server handles, then the controller handle. -/
def joinSteps (r : BuildResult) : List Step :=
  r.drones.map (fun a => Step.joinDrone a.id)
    ++ r.chat_clients.map (fun a => Step.joinChatClient a.id)
    ++ r.media_clients.map (fun a => Step.joinMediaClient a.id)
    ++ r.communication_servers.map (fun a => Step.joinCommServer a.id)
    ++ [Step.joinController]

/-- The joins actually attempted given each join's outcome (`true` = the
thread's closure returned, `false` = `join()` returns `Err`): each join is
`handle.join().unwrap()`, so an `Err` outcome panics after that join and no
later handle is joined. -/
def attemptJoins : List Step → (Step → Bool) → List Step
  | [], _ => []
  | s :: rest, outcome => if outcome s then s :: attemptJoins rest outcome else [s]

/-- Every packet/command/event `Receiver` still held by some component once
the population is built: the builder tables (alive in `run()`'s scope), each
actor's cloned receivers, the controller's receivers, and the GUI's event
receiver. -/
def allConsumers (r : BuildResult) : List Receiver :=
  r.packet_recv.map Prod.snd
    ++ r.command_recv.map Prod.snd
    ++ r.cclient_recv.map Prod.snd
    ++ r.mclient_recv.map Prod.snd
    ++ r.comm_server_recv.map Prod.snd
    ++ r.drones.map (·.command_recv) ++ r.drones.map (·.packet_recv)
    ++ r.chat_clients.map (·.command_recv) ++ r.chat_clients.map (·.packet_recv)
    ++ r.media_clients.map (·.command_recv) ++ r.media_clients.map (·.packet_recv)
    ++ r.communication_servers.map (·.packet_recv)
    ++ r.communication_servers.map (·.comm_server_recv)
    ++ [r.controller.event_recv, r.controller.gui_command_recv,
        r.controller.cclient_event_recv, r.controller.mclient_event_recv,
        r.controller.comm_server_event_recv]
    ++ [r.gui_event_recv]

/-- Number of live consumer ends of channel `c`. -/
def consumersOf (r : BuildResult) (c : Nat) : Nat :=
  (allConsumers r).count ⟨c⟩

/-- The receivers the controller holds (its constructor arguments of receiver
type, lines 502-515). -/
def controllerReceivers (r : BuildResult) : List Receiver :=
  [r.controller.event_recv, r.controller.gui_command_recv,
   r.controller.cclient_event_recv, r.controller.mclient_event_recv,
   r.controller.comm_server_event_recv]

/-- The per-node directory the controller can address nodes through: the
drone, chat-client, media-client and server sender tables, in that order. -/
def directoryKeys (r : BuildResult) : List Nat :=
  keysA r.controller.drones_hashmap ++ keysA r.controller.cclient_send
    ++ keysA r.controller.mclient_send ++ keysA r.controller.comm_server_send

/-- Lookup of a node in the controller's directory. -/
def lookupDirectory (r : BuildResult) (i : Nat) : Option (Sender × Sender) :=
  getA (r.controller.drones_hashmap ++ r.controller.cclient_send
    ++ r.controller.mclient_send ++ r.controller.comm_server_send) i

/-- Total number of outbound packet-producer registrations retained by the
constructed actors (the sizes of their neighbor sender maps). -/
def totalOutboundRegistrations (r : BuildResult) : Nat :=
  (r.drones.map (·.packet_send.length)).sum
    + (r.chat_clients.map (·.packet_send.length)).sum
    + (r.media_clients.map (·.packet_send.length)).sum
    + (r.communication_servers.map (·.packet_send.length)).sum

/-- Sum of the lengths of all declared adjacency lists. -/
def sumAdjLens (cfg : Config) : Nat :=
  (cfg.drone.map (·.connected_node_ids.length)).sum
    + (cfg.client.map (·.connected_drone_ids.length)).sum
    + (cfg.server.map (·.connected_drone_ids.length)).sum

/-- A topology whose only drone declares the undeclared neighbor 99. -/
def cfgDroneDangling : Config := ⟨[⟨1, [99], 0⟩], [], []⟩

/-- A topology whose client declares the undeclared neighbor 99. -/
def cfgClientDangling : Config := ⟨[⟨1, [], 0⟩], [⟨2, [99]⟩], []⟩

/-- Two drones connected to each other. -/
def cfgTwoDrones : Config := ⟨[⟨1, [2], 0⟩, ⟨2, [1], 0⟩], [], []⟩

/-- Join outcomes where the very first joined thread (drone 1) aborted. -/
def failFirstJoin : Step → Bool
  | .joinDrone 1 => false
  | _ => true

/-- A single isolated drone. -/
def cfgOneDrone : Config := ⟨[⟨1, [], 0⟩], [], []⟩

/-- A three-drone line topology: below the documented minimum of 10 drones. -/
def cfgThreeDrones : Config := ⟨[⟨1, [2], 0⟩, ⟨2, [1, 3], 0⟩, ⟨3, [2], 0⟩], [], []⟩

/-- Eleven isolated drones: one more than the number of registered factories. -/
def cfgElevenDrones : Config :=
  ⟨[⟨1, [], 0⟩, ⟨2, [], 0⟩, ⟨3, [], 0⟩, ⟨4, [], 0⟩, ⟨5, [], 0⟩, ⟨6, [], 0⟩,
    ⟨7, [], 0⟩, ⟨8, [], 0⟩, ⟨9, [], 0⟩, ⟨10, [], 0⟩, ⟨11, [], 0⟩], [], []⟩

/-- A valid topology in which drone 1 lists its (declared) neighbor 2 twice. -/
def cfgDupAdj : Config := ⟨[⟨1, [2, 2], 0⟩, ⟨2, [1], 0⟩], [], []⟩

/-- A small full topology: two drones, three clients, one server, all
adjacency references declared, ids pairwise distinct. -/
def cfgFull : Config :=
  ⟨[⟨1, [2, 5], 0⟩, ⟨2, [1, 3, 4, 6], 0⟩],
   [⟨3, [2]⟩, ⟨4, [2]⟩, ⟨5, [1]⟩],
   [⟨6, [2]⟩]⟩

/-! Association-list lemmas. -/

theorem keysA_append {α : Type} (m₁ m₂ : AList α) :
    keysA (m₁ ++ m₂) = keysA m₁ ++ keysA m₂ := by
  simp [keysA]

theorem getA_isSome_iff {α : Type} (m : AList α) (k : Nat) :
    (getA m k).isSome = true ↔ k ∈ keysA m := by
  induction m with
  | nil => simp [getA, keysA]
  | cons p rest ih =>
      obtain ⟨k', v⟩ := p
      by_cases h : k' = k
      · subst h; simp [getA, keysA]
      · simp [getA, keysA, h, ih, Ne.symm h]

theorem getA_eq_none {α : Type} {m : AList α} {k : Nat} (h : k ∉ keysA m) :
    getA m k = none := by
  cases h2 : getA m k with
  | none => rfl
  | some v =>
      exact absurd ((getA_isSome_iff m k).mp (by simp [h2])) h

theorem getA_mem {α : Type} {m : AList α} {k : Nat} {v : α}
    (h : getA m k = some v) : (k, v) ∈ m := by
  induction m with
  | nil => simp [getA] at h
  | cons p rest ih =>
      obtain ⟨k', v'⟩ := p
      by_cases hk : k' = k
      · subst hk
        simp [getA] at h
        simp [h]
      · simp [getA, hk] at h
        exact List.mem_cons_of_mem _ (ih h)

theorem mem_insertA {α : Type} {m : AList α} {k : Nat} {v : α} {p : Nat × α}
    (h : p ∈ insertA m k v) : p ∈ m ∨ p = (k, v) := by
  induction m with
  | nil => simp [insertA] at h; simp [h]
  | cons q rest ih =>
      obtain ⟨k', v'⟩ := q
      by_cases hk : k' = k
      · subst hk
        simp [insertA] at h
        rcases h with h | h
        · right; simp [h]
        · left; exact List.mem_cons_of_mem _ h
      · simp [insertA, hk] at h
        rcases h with h | h
        · left; simp [h]
        · rcases ih h with h2 | h2
          · left; exact List.mem_cons_of_mem _ h2
          · right; exact h2

theorem keysA_insertA_mem {α : Type} {m : AList α} {k : Nat} {v : α} {j : Nat}
    (h : j ∈ keysA (insertA m k v)) : j ∈ keysA m ∨ j = k := by
  obtain ⟨p, hp, hj⟩ := List.mem_map.mp h
  rcases mem_insertA hp with h2 | h2
  · left; exact hj ▸ List.mem_map.mpr ⟨p, h2, rfl⟩
  · right; rw [h2] at hj; exact hj.symm

theorem insertA_fresh {α : Type} {m : AList α} {k : Nat} (v : α)
    (h : k ∉ keysA m) : insertA m k v = m ++ [(k, v)] := by
  induction m with
  | nil => simp [insertA]
  | cons q rest ih =>
      obtain ⟨k', v'⟩ := q
      simp [keysA] at h
      simp [insertA, Ne.symm h.1, ih (by simpa [keysA] using h.2)]

theorem keysA_insertA_fresh {α : Type} {m : AList α} {k : Nat} (v : α)
    (h : k ∉ keysA m) : keysA (insertA m k v) = keysA m ++ [k] := by
  rw [insertA_fresh v h, keysA_append]; rfl

theorem getA_insertA_self {α : Type} (m : AList α) (k : Nat) (v : α) :
    getA (insertA m k v) k = some v := by
  induction m with
  | nil => simp [insertA, getA]
  | cons q rest ih =>
      obtain ⟨k', v'⟩ := q
      by_cases hk : k' = k
      · subst hk; simp [insertA, getA]
      · simp [insertA, getA, hk, ih]

theorem mem_insertA_of_ne {α : Type} {m : AList α} {k : Nat} {v : α}
    {p : Nat × α} (hp : p ∈ m) (hne : p.1 ≠ k) : p ∈ insertA m k v := by
  induction m with
  | nil => simp at hp
  | cons q rest ih =>
      obtain ⟨k', v'⟩ := q
      by_cases hk : k' = k
      · subst hk
        rcases List.mem_cons.mp hp with h | h
        · exact absurd (by rw [h]) hne
        · simp only [insertA, if_pos rfl]
          exact List.mem_cons_of_mem _ h
      · simp only [insertA, if_neg hk]
        rcases List.mem_cons.mp hp with h | h
        · exact h ▸ List.mem_cons_self _ _
        · exact List.mem_cons_of_mem _ (ih h)

theorem keysA_insertA_super {α : Type} {m : AList α} {j : Nat} (k : Nat) (v : α)
    (h : j ∈ keysA m) : j ∈ keysA (insertA m k v) := by
  by_cases hj : j = k
  · subst hj
    rw [← getA_isSome_iff]
    simp [getA_insertA_self]
  · obtain ⟨p, hp, hfst⟩ := List.mem_map.mp h
    exact hfst ▸ List.mem_map.mpr
      ⟨p, mem_insertA_of_ne hp (by rw [hfst]; exact hj), rfl⟩

theorem getA_insertA_isSome {α : Type} {m : AList α} {j k : Nat} (v : α)
    (h : (getA m j).isSome = true) : (getA (insertA m k v) j).isSome = true := by
  rw [getA_isSome_iff] at h ⊢
  exact keysA_insertA_super k v h

/-! Channel-phase lemmas: how the three channel-creation loops advance the
channel counter and populate the tables. -/

theorem droneChannels_ctr (ds : List ConfigDrone) :
    ∀ k ps pr cs cr, (droneChannels ds k ps pr cs cr).ctr = k + 2 * ds.length := by
  induction ds with
  | nil => intro k ps pr cs cr; simp [droneChannels]
  | cons d rest ih =>
      intro k ps pr cs cr
      simp only [droneChannels]
      rw [ih, List.length_cons]
      omega

theorem serverChannels_ctr (ss : List ConfigServer) :
    ∀ ev k ps pr css csr,
      (serverChannels ev ss k ps pr css csr).ctr = k + 2 * ss.length := by
  induction ss with
  | nil => intro ev k ps pr css csr; simp [serverChannels]
  | cons s rest ih =>
      intro ev k ps pr css csr
      simp only [serverChannels]
      rw [ih, List.length_cons]
      omega

theorem clientChannels_ctr (cs : List ConfigClient) :
    ∀ half cnt k ps pr ccs ccr mcs mcr,
      (clientChannels half cs cnt k ps pr ccs ccr mcs mcr).ctr = k + 2 * cs.length := by
  induction cs with
  | nil => intro half cnt k ps pr ccs ccr mcs mcr; simp [clientChannels]
  | cons c rest ih =>
      intro half cnt k ps pr ccs ccr mcs mcr
      by_cases hc : cnt < half
      · simp only [clientChannels, if_pos hc]
        rw [ih, List.length_cons]; omega
      · simp only [clientChannels, if_neg hc]
        rw [ih, List.length_cons]; omega

theorem droneChannels_preserves (ds : List ConfigDrone) :
    ∀ k ps pr cs cr j,
      (getA ps j).isSome = true → (getA pr j).isSome = true →
      (getA cs j).isSome = true → (getA cr j).isSome = true →
      (getA (droneChannels ds k ps pr cs cr).packet_send j).isSome = true ∧
      (getA (droneChannels ds k ps pr cs cr).packet_recv j).isSome = true ∧
      (getA (droneChannels ds k ps pr cs cr).command_send j).isSome = true ∧
      (getA (droneChannels ds k ps pr cs cr).command_recv j).isSome = true := by
  induction ds with
  | nil => intro k ps pr cs cr j h1 h2 h3 h4; exact ⟨h1, h2, h3, h4⟩
  | cons d rest ih =>
      intro k ps pr cs cr j h1 h2 h3 h4
      simp only [droneChannels]
      exact ih (k + 2) _ _ _ _ j (getA_insertA_isSome _ h1)
        (getA_insertA_isSome _ h2) (getA_insertA_isSome _ h3)
        (getA_insertA_isSome _ h4)

theorem droneChannels_registers (ds : List ConfigDrone) :
    ∀ k ps pr cs cr d, d ∈ ds →
      (getA (droneChannels ds k ps pr cs cr).packet_send d.id).isSome = true ∧
      (getA (droneChannels ds k ps pr cs cr).packet_recv d.id).isSome = true ∧
      (getA (droneChannels ds k ps pr cs cr).command_send d.id).isSome = true ∧
      (getA (droneChannels ds k ps pr cs cr).command_recv d.id).isSome = true := by
  induction ds with
  | nil => intro k ps pr cs cr d hd; simp at hd
  | cons d0 rest ih =>
      intro k ps pr cs cr d hd
      rcases List.mem_cons.mp hd with h | h
      · subst h
        simp only [droneChannels]
        exact droneChannels_preserves rest (k + 2) _ _ _ _ d.id
          (by simp [getA_insertA_self]) (by simp [getA_insertA_self])
          (by simp [getA_insertA_self]) (by simp [getA_insertA_self])
      · simp only [droneChannels]
        exact ih (k + 2) _ _ _ _ d h

theorem serverChannels_preserves_pkt (ss : List ConfigServer) :
    ∀ ev k ps pr css csr j,
      (getA ps j).isSome = true → (getA pr j).isSome = true →
      (getA (serverChannels ev ss k ps pr css csr).packet_send j).isSome = true ∧
      (getA (serverChannels ev ss k ps pr css csr).packet_recv j).isSome = true := by
  induction ss with
  | nil => intro ev k ps pr css csr j h1 h2; exact ⟨h1, h2⟩
  | cons s rest ih =>
      intro ev k ps pr css csr j h1 h2
      simp only [serverChannels]
      exact ih ev (k + 2) _ _ _ _ j (getA_insertA_isSome _ h1)
        (getA_insertA_isSome _ h2)

theorem clientChannels_preserves_pkt (cs : List ConfigClient) :
    ∀ half cnt k ps pr ccs ccr mcs mcr j,
      (getA ps j).isSome = true → (getA pr j).isSome = true →
      (getA (clientChannels half cs cnt k ps pr ccs ccr mcs mcr).packet_send j).isSome = true ∧
      (getA (clientChannels half cs cnt k ps pr ccs ccr mcs mcr).packet_recv j).isSome = true := by
  induction cs with
  | nil => intro half cnt k ps pr ccs ccr mcs mcr j h1 h2; exact ⟨h1, h2⟩
  | cons c rest ih =>
      intro half cnt k ps pr ccs ccr mcs mcr j h1 h2
      by_cases hc : cnt < half
      · simp only [clientChannels, if_pos hc]
        exact ih half (cnt + 1) (k + 2) _ _ _ _ _ _ j
          (getA_insertA_isSome _ h1) (getA_insertA_isSome _ h2)
      · simp only [clientChannels, if_neg hc]
        exact ih half (cnt + 1) (k + 2) _ _ _ _ _ _ j
          (getA_insertA_isSome _ h1) (getA_insertA_isSome _ h2)

theorem droneChannels_ps_keys_sub (ds : List ConfigDrone) :
    ∀ k ps pr cs cr j,
      j ∈ keysA (droneChannels ds k ps pr cs cr).packet_send →
      j ∈ keysA ps ∨ j ∈ ds.map (·.id) := by
  induction ds with
  | nil => intro k ps pr cs cr j h; exact Or.inl h
  | cons d rest ih =>
      intro k ps pr cs cr j h
      simp only [droneChannels] at h
      rcases ih (k + 2) _ _ _ _ j h with h2 | h2
      · rcases keysA_insertA_mem h2 with h3 | h3
        · exact Or.inl h3
        · exact Or.inr (by simp [h3])
      · exact Or.inr (by simp [h2])

theorem serverChannels_ps_keys_sub (ss : List ConfigServer) :
    ∀ ev k ps pr css csr j,
      j ∈ keysA (serverChannels ev ss k ps pr css csr).packet_send →
      j ∈ keysA ps ∨ j ∈ ss.map (·.id) := by
  induction ss with
  | nil => intro ev k ps pr css csr j h; exact Or.inl h
  | cons s rest ih =>
      intro ev k ps pr css csr j h
      simp only [serverChannels] at h
      rcases ih ev (k + 2) _ _ _ _ j h with h2 | h2
      · rcases keysA_insertA_mem h2 with h3 | h3
        · exact Or.inl h3
        · exact Or.inr (by simp [h3])
      · exact Or.inr (by simp [h2])

theorem clientChannels_ps_keys_sub (cs : List ConfigClient) :
    ∀ half cnt k ps pr ccs ccr mcs mcr j,
      j ∈ keysA (clientChannels half cs cnt k ps pr ccs ccr mcs mcr).packet_send →
      j ∈ keysA ps ∨ j ∈ cs.map (·.id) := by
  induction cs with
  | nil => intro half cnt k ps pr ccs ccr mcs mcr j h; exact Or.inl h
  | cons c rest ih =>
      intro half cnt k ps pr ccs ccr mcs mcr j h
      by_cases hc : cnt < half
      · simp only [clientChannels, if_pos hc] at h
        rcases ih half (cnt + 1) (k + 2) _ _ _ _ _ _ j h with h2 | h2
        · rcases keysA_insertA_mem h2 with h3 | h3
          · exact Or.inl h3
          · exact Or.inr (by simp [h3])
        · exact Or.inr (by simp [h2])
      · simp only [clientChannels, if_neg hc] at h
        rcases ih half (cnt + 1) (k + 2) _ _ _ _ _ _ j h with h2 | h2
        · rcases keysA_insertA_mem h2 with h3 | h3
          · exact Or.inl h3
          · exact Or.inr (by simp [h3])
        · exact Or.inr (by simp [h2])

theorem droneChannels_pr_bounds (ds : List ConfigDrone) :
    ∀ k ps pr cs cr p,
      p ∈ (droneChannels ds k ps pr cs cr).packet_recv →
      p ∈ pr ∨ (k ≤ p.2.ch ∧ p.2.ch < k + 2 * ds.length ∧ (p.2.ch - k) % 2 = 0) := by
  induction ds with
  | nil => intro k ps pr cs cr p h; exact Or.inl h
  | cons d rest ih =>
      intro k ps pr cs cr p h
      simp only [droneChannels] at h
      rcases ih (k + 2) _ _ _ _ p h with h2 | h2
      · rcases mem_insertA h2 with h3 | h3
        · exact Or.inl h3
        · right
          rw [h3]
          simp only [List.length_cons]
          omega
      · right
        simp only [List.length_cons]
        omega

theorem serverChannels_pr_bounds (ss : List ConfigServer) :
    ∀ ev k ps pr css csr p,
      p ∈ (serverChannels ev ss k ps pr css csr).packet_recv →
      p ∈ pr ∨ (k ≤ p.2.ch ∧ p.2.ch < k + 2 * ss.length ∧ (p.2.ch - k) % 2 = 1) := by
  induction ss with
  | nil => intro ev k ps pr css csr p h; exact Or.inl h
  | cons s rest ih =>
      intro ev k ps pr css csr p h
      simp only [serverChannels] at h
      rcases ih ev (k + 2) _ _ _ _ p h with h2 | h2
      · rcases mem_insertA h2 with h3 | h3
        · exact Or.inl h3
        · right
          rw [h3]
          simp only [List.length_cons]
          omega
      · right
        simp only [List.length_cons]
        omega

theorem clientChannels_pr_bounds (cs : List ConfigClient) :
    ∀ half cnt k ps pr ccs ccr mcs mcr p,
      p ∈ (clientChannels half cs cnt k ps pr ccs ccr mcs mcr).packet_recv →
      p ∈ pr ∨ (k ≤ p.2.ch ∧ p.2.ch < k + 2 * cs.length ∧ (p.2.ch - k) % 2 = 1) := by
  induction cs with
  | nil => intro half cnt k ps pr ccs ccr mcs mcr p h; exact Or.inl h
  | cons c rest ih =>
      intro half cnt k ps pr ccs ccr mcs mcr p h
      by_cases hc : cnt < half
      · simp only [clientChannels, if_pos hc] at h
        rcases ih half (cnt + 1) (k + 2) _ _ _ _ _ _ p h with h2 | h2
        · rcases mem_insertA h2 with h3 | h3
          · exact Or.inl h3
          · right
            rw [h3]
            simp only [List.length_cons]
            omega
        · right
          simp only [List.length_cons]
          omega
      · simp only [clientChannels, if_neg hc] at h
        rcases ih half (cnt + 1) (k + 2) _ _ _ _ _ _ p h with h2 | h2
        · rcases mem_insertA h2 with h3 | h3
          · exact Or.inl h3
          · right
            rw [h3]
            simp only [List.length_cons]
            omega
        · right
          simp only [List.length_cons]
          omega

theorem serverChannels_csr_values (ss : List ConfigServer) :
    ∀ ev k ps pr css csr p,
      p ∈ (serverChannels ev ss k ps pr css csr).comm_server_recv →
      p ∈ csr ∨ p.2 = ev := by
  induction ss with
  | nil => intro ev k ps pr css csr p h; exact Or.inl h
  | cons s rest ih =>
      intro ev k ps pr css csr p h
      simp only [serverChannels] at h
      rcases ih ev (k + 2) _ _ _ _ p h with h2 | h2
      · rcases mem_insertA h2 with h3 | h3
        · exact Or.inl h3
        · right; rw [h3]
      · exact Or.inr h2

theorem droneChannels_keys (ds : List ConfigDrone) :
    ∀ k ps pr cs cr,
      (ds.map (·.id)).Nodup →
      (∀ d ∈ ds, d.id ∉ keysA ps) → (∀ d ∈ ds, d.id ∉ keysA pr) →
      (∀ d ∈ ds, d.id ∉ keysA cs) → (∀ d ∈ ds, d.id ∉ keysA cr) →
      keysA (droneChannels ds k ps pr cs cr).packet_send = keysA ps ++ ds.map (·.id) ∧
      keysA (droneChannels ds k ps pr cs cr).packet_recv = keysA pr ++ ds.map (·.id) ∧
      keysA (droneChannels ds k ps pr cs cr).command_send = keysA cs ++ ds.map (·.id) ∧
      keysA (droneChannels ds k ps pr cs cr).command_recv = keysA cr ++ ds.map (·.id) := by
  induction ds with
  | nil =>
      intro k ps pr cs cr _ _ _ _ _
      simp [droneChannels]
  | cons d rest ih =>
      intro k ps pr cs cr hnd hps hpr hcs hcr
      simp only [List.map_cons, List.nodup_cons] at hnd
      have fresh : ∀ (d' : ConfigDrone), d' ∈ rest → d'.id ≠ d.id := by
        intro d' hd' heq
        exact hnd.1 (heq ▸ List.mem_map.mpr ⟨d', hd', rfl⟩)
      have step : ∀ (β : Type) (m : AList β) (v : β),
          (∀ x ∈ d :: rest, x.id ∉ keysA m) →
          keysA (insertA m d.id v) = keysA m ++ [d.id] ∧
          ∀ x ∈ rest, x.id ∉ keysA (insertA m d.id v) := by
        intro β m v hm
        refine ⟨keysA_insertA_fresh v (hm d (List.mem_cons_self d rest)), ?_⟩
        intro x hx hmem
        rw [keysA_insertA_fresh v (hm d (List.mem_cons_self d rest))] at hmem
        rcases List.mem_append.mp hmem with h | h
        · exact hm x (List.mem_cons_of_mem _ hx) h
        · exact fresh x hx (by simpa using h)
      obtain ⟨eps, fps⟩ := step Sender ps ⟨k⟩ hps
      obtain ⟨epr, fpr⟩ := step Receiver pr ⟨k⟩ hpr
      obtain ⟨ecs, fcs⟩ := step Sender cs ⟨k + 1⟩ hcs
      obtain ⟨ecr, fcr⟩ := step Receiver cr ⟨k + 1⟩ hcr
      simp only [droneChannels]
      obtain ⟨r1, r2, r3, r4⟩ := ih (k + 2) _ _ _ _ hnd.2 fps fpr fcs fcr
      rw [r1, r2, r3, r4, eps, epr, ecs, ecr]
      simp [List.append_assoc]

theorem serverChannels_keys (ss : List ConfigServer) :
    ∀ ev k ps pr css csr,
      (ss.map (·.id)).Nodup →
      (∀ s ∈ ss, s.id ∉ keysA ps) → (∀ s ∈ ss, s.id ∉ keysA pr) →
      (∀ s ∈ ss, s.id ∉ keysA css) → (∀ s ∈ ss, s.id ∉ keysA csr) →
      keysA (serverChannels ev ss k ps pr css csr).packet_send
        = keysA ps ++ ss.map (·.id) ∧
      keysA (serverChannels ev ss k ps pr css csr).packet_recv
        = keysA pr ++ ss.map (·.id) ∧
      keysA (serverChannels ev ss k ps pr css csr).comm_server_send
        = keysA css ++ ss.map (·.id) ∧
      keysA (serverChannels ev ss k ps pr css csr).comm_server_recv
        = keysA csr ++ ss.map (·.id) := by
  induction ss with
  | nil =>
      intro ev k ps pr css csr _ _ _ _ _
      simp [serverChannels]
  | cons s rest ih =>
      intro ev k ps pr css csr hnd hps hpr hcss hcsr
      simp only [List.map_cons, List.nodup_cons] at hnd
      have fresh : ∀ (s' : ConfigServer), s' ∈ rest → s'.id ≠ s.id := by
        intro s' hs' heq
        exact hnd.1 (heq ▸ List.mem_map.mpr ⟨s', hs', rfl⟩)
      have step : ∀ (β : Type) (m : AList β) (v : β),
          (∀ x ∈ s :: rest, x.id ∉ keysA m) →
          keysA (insertA m s.id v) = keysA m ++ [s.id] ∧
          ∀ x ∈ rest, x.id ∉ keysA (insertA m s.id v) := by
        intro β m v hm
        refine ⟨keysA_insertA_fresh v (hm s (List.mem_cons_self s rest)), ?_⟩
        intro x hx hmem
        rw [keysA_insertA_fresh v (hm s (List.mem_cons_self s rest))] at hmem
        rcases List.mem_append.mp hmem with h | h
        · exact hm x (List.mem_cons_of_mem _ hx) h
        · exact fresh x hx (by simpa using h)
      obtain ⟨eps, fps⟩ := step Sender ps ⟨k + 1⟩ hps
      obtain ⟨epr, fpr⟩ := step Receiver pr ⟨k + 1⟩ hpr
      obtain ⟨ecss, fcss⟩ := step (Sender × Sender) css (⟨k⟩, ⟨k + 1⟩) hcss
      obtain ⟨ecsr, fcsr⟩ := step Receiver csr ev hcsr
      simp only [serverChannels]
      obtain ⟨r1, r2, r3, r4⟩ := ih ev (k + 2) _ _ _ _ hnd.2 fps fpr fcss fcsr
      rw [r1, r2, r3, r4, eps, epr, ecss, ecsr]
      simp [List.append_assoc]

theorem clientChannels_keys (cs : List ConfigClient) :
    ∀ half cnt k ps pr ccs ccr mcs mcr,
      (cs.map (·.id)).Nodup →
      (∀ c ∈ cs, c.id ∉ keysA ps) → (∀ c ∈ cs, c.id ∉ keysA pr) →
      (∀ c ∈ cs, c.id ∉ keysA ccs) → (∀ c ∈ cs, c.id ∉ keysA ccr) →
      (∀ c ∈ cs, c.id ∉ keysA mcs) → (∀ c ∈ cs, c.id ∉ keysA mcr) →
      keysA (clientChannels half cs cnt k ps pr ccs ccr mcs mcr).packet_send
        = keysA ps ++ cs.map (·.id) ∧
      keysA (clientChannels half cs cnt k ps pr ccs ccr mcs mcr).packet_recv
        = keysA pr ++ cs.map (·.id) ∧
      keysA (clientChannels half cs cnt k ps pr ccs ccr mcs mcr).cclient_send
        = keysA ccs ++ (cs.take (half - cnt)).map (·.id) ∧
      keysA (clientChannels half cs cnt k ps pr ccs ccr mcs mcr).cclient_recv
        = keysA ccr ++ (cs.take (half - cnt)).map (·.id) ∧
      keysA (clientChannels half cs cnt k ps pr ccs ccr mcs mcr).mclient_send
        = keysA mcs ++ (cs.drop (half - cnt)).map (·.id) ∧
      keysA (clientChannels half cs cnt k ps pr ccs ccr mcs mcr).mclient_recv
        = keysA mcr ++ (cs.drop (half - cnt)).map (·.id) := by
  induction cs with
  | nil =>
      intro half cnt k ps pr ccs ccr mcs mcr _ _ _ _ _ _ _
      simp [clientChannels]
  | cons c rest ih =>
      intro half cnt k ps pr ccs ccr mcs mcr hnd hps hpr hccs hccr hmcs hmcr
      simp only [List.map_cons, List.nodup_cons] at hnd
      have fresh : ∀ (c' : ConfigClient), c' ∈ rest → c'.id ≠ c.id := by
        intro c' hc' heq
        exact hnd.1 (heq ▸ List.mem_map.mpr ⟨c', hc', rfl⟩)
      have step : ∀ (β : Type) (m : AList β) (v : β),
          (∀ x ∈ c :: rest, x.id ∉ keysA m) →
          keysA (insertA m c.id v) = keysA m ++ [c.id] ∧
          ∀ x ∈ rest, x.id ∉ keysA (insertA m c.id v) := by
        intro β m v hm
        refine ⟨keysA_insertA_fresh v (hm c (List.mem_cons_self c rest)), ?_⟩
        intro x hx hmem
        rw [keysA_insertA_fresh v (hm c (List.mem_cons_self c rest))] at hmem
        rcases List.mem_append.mp hmem with h | h
        · exact hm x (List.mem_cons_of_mem _ hx) h
        · exact fresh x hx (by simpa using h)
      have tail : ∀ (β : Type) (m : AList β),
          (∀ x ∈ c :: rest, x.id ∉ keysA m) → ∀ x ∈ rest, x.id ∉ keysA m := by
        intro β m hm x hx
        exact hm x (List.mem_cons_of_mem _ hx)
      obtain ⟨eps, fps⟩ := step Sender ps ⟨k + 1⟩ hps
      obtain ⟨epr, fpr⟩ := step Receiver pr ⟨k + 1⟩ hpr
      by_cases hc : cnt < half
      · obtain ⟨eccs, fccs⟩ := step (Sender × Sender) ccs (⟨k⟩, ⟨k + 1⟩) hccs
        obtain ⟨eccr, fccr⟩ := step Receiver ccr ⟨k⟩ hccr
        simp only [clientChannels, if_pos hc]
        obtain ⟨r1, r2, r3, r4, r5, r6⟩ := ih half (cnt + 1) (k + 2) _ _ _ _ _ _
          hnd.2 fps fpr fccs fccr (tail _ mcs hmcs) (tail _ mcr hmcr)
        rw [r1, r2, r3, r4, r5, r6, eps, epr, eccs, eccr]
        have hsub : half - cnt = (half - (cnt + 1)) + 1 := by omega
        rw [hsub, List.take_succ_cons, List.drop_succ_cons]
        simp [List.append_assoc]
      · obtain ⟨emcs, fmcs⟩ := step (Sender × Sender) mcs (⟨k⟩, ⟨k + 1⟩) hmcs
        obtain ⟨emcr, fmcr⟩ := step Receiver mcr ⟨k⟩ hmcr
        simp only [clientChannels, if_neg hc]
        obtain ⟨r1, r2, r3, r4, r5, r6⟩ := ih half (cnt + 1) (k + 2) _ _ _ _ _ _
          hnd.2 fps fpr (tail _ ccs hccs) (tail _ ccr hccr) fmcs fmcr
        rw [r1, r2, r3, r4, r5, r6, eps, epr, emcs, emcr]
        have hsub1 : half - cnt = 0 := by omega
        have hsub2 : half - (cnt + 1) = 0 := by omega
        rw [hsub1, hsub2]
        simp [List.append_assoc]

/-! Generation-phase lemmas. -/

theorem dronePacketSend_length (ps : AList Sender) (ns : List Nat) :
    ∀ acc, ns.Nodup → (∀ nb ∈ ns, (getA ps nb).isSome = true) →
      (∀ nb ∈ ns, nb ∉ keysA acc) →
      (dronePacketSend ps ns acc).length = acc.length + ns.length := by
  induction ns with
  | nil => intro acc _ _ _; simp [dronePacketSend]
  | cons nb rest ih =>
      intro acc hnd hpres hfresh
      simp only [List.nodup_cons] at hnd
      obtain ⟨sv, hsv⟩ := Option.isSome_iff_exists.mp
        (hpres nb (List.mem_cons_self nb rest))
      simp only [dronePacketSend, hsv]
      rw [insertA_fresh sv (hfresh nb (List.mem_cons_self nb rest))]
      rw [ih (acc ++ [(nb, sv)]) hnd.2
        (fun x hx => hpres x (List.mem_cons_of_mem _ hx))
        (fun x hx => by
          rw [keysA_append]
          intro hmem
          rcases List.mem_append.mp hmem with h | h
          · exact hfresh x (List.mem_cons_of_mem _ hx) h
          · have : x = nb := by simpa [keysA] using h
            exact hnd.1 (this ▸ hx))]
      simp only [List.length_append, List.length_cons, List.length_nil]
      omega

theorem droneGen_cons_ok {es : Sender} {cr : AList Receiver} {ps : AList Sender}
    {pr : AList Receiver} {cs : AList Sender} {d : ConfigDrone}
    {rest : List ConfigDrone} {n : Nat} {acc : List DroneActor}
    {dh : AList (Sender × Sender)} {actors : List DroneActor}
    {dh2 : AList (Sender × Sender)}
    (h : droneGen es cr ps pr cs (d :: rest) n acc dh = .ok (actors, dh2)) :
    ∃ v prc crc pks cmds,
      drone_factories[n]? = some v ∧ getA pr d.id = some prc ∧
      getA cr d.id = some crc ∧ getA ps d.id = some pks ∧
      getA cs d.id = some cmds ∧
      droneGen es cr ps pr cs rest (n + 1)
        (acc ++ [⟨d.id, v, es, crc, prc,
          dronePacketSend ps d.connected_node_ids [], d.pdr⟩])
        (insertA dh d.id (cmds, pks)) = .ok (actors, dh2) := by
  simp only [droneGen] at h
  cases hf : drone_factories[n]? with
  | none => simp [hf] at h
  | some v =>
      simp only [hf] at h
      cases hpr : getA pr d.id with
      | none => simp [hpr] at h
      | some prc =>
          simp only [hpr] at h
          cases hcr : getA cr d.id with
          | none => simp [hcr] at h
          | some crc =>
              simp only [hcr] at h
              cases hps : getA ps d.id with
              | none => simp [hps] at h
              | some pks =>
                  simp only [hps] at h
                  cases hcs : getA cs d.id with
                  | none => simp [hcs] at h
                  | some cmds =>
                      simp only [hcs] at h
                      exact ⟨v, prc, crc, pks, cmds, rfl, rfl, rfl, rfl, rfl, h⟩

theorem droneGen_nil_ok {es : Sender} {cr : AList Receiver} {ps : AList Sender}
    {pr : AList Receiver} {cs : AList Sender} {n : Nat} {acc : List DroneActor}
    {dh : AList (Sender × Sender)} {actors : List DroneActor}
    {dh2 : AList (Sender × Sender)}
    (h : droneGen es cr ps pr cs [] n acc dh = .ok (actors, dh2)) :
    actors = acc ∧ dh2 = dh := by
  simp only [droneGen, Except.ok.injEq, Prod.mk.injEq] at h
  exact ⟨h.1.symm, h.2.symm⟩

theorem droneGen_recv (ds : List ConfigDrone) :
    ∀ es cr ps pr cs n acc dh actors dh2,
      droneGen es cr ps pr cs ds n acc dh = .ok (actors, dh2) →
      ∀ a ∈ actors, a ∈ acc ∨ getA pr a.id = some a.packet_recv := by
  induction ds with
  | nil =>
      intro es cr ps pr cs n acc dh actors dh2 h a ha
      obtain ⟨h1, _⟩ := droneGen_nil_ok h
      exact Or.inl (h1 ▸ ha)
  | cons d rest ih =>
      intro es cr ps pr cs n acc dh actors dh2 h a ha
      obtain ⟨v, prc, crc, pks, cmds, _, hpr, _, _, _, hrec⟩ := droneGen_cons_ok h
      rcases ih es cr ps pr cs (n + 1) _ _ actors dh2 hrec a ha with h2 | h2
      · rcases List.mem_append.mp h2 with h3 | h3
        · exact Or.inl h3
        · right
          have ha2 : a = ⟨d.id, v, es, crc, prc,
              dronePacketSend ps d.connected_node_ids [], d.pdr⟩ := by
            simpa using h3
          rw [ha2]
          exact hpr
      · exact Or.inr h2

theorem droneGen_lengths (ds : List ConfigDrone) :
    ∀ es cr ps pr cs n acc dh actors dh2,
      (∀ d ∈ ds, d.connected_node_ids.Nodup) →
      (∀ d ∈ ds, ∀ nb ∈ d.connected_node_ids, (getA ps nb).isSome = true) →
      droneGen es cr ps pr cs ds n acc dh = .ok (actors, dh2) →
      actors.map (·.packet_send.length)
        = acc.map (·.packet_send.length) ++ ds.map (·.connected_node_ids.length) := by
  induction ds with
  | nil =>
      intro es cr ps pr cs n acc dh actors dh2 _ _ h
      obtain ⟨h1, _⟩ := droneGen_nil_ok h
      simp [h1]
  | cons d rest ih =>
      intro es cr ps pr cs n acc dh actors dh2 hnd hpres h
      obtain ⟨v, prc, crc, pks, cmds, _, _, _, _, _, hrec⟩ := droneGen_cons_ok h
      rw [ih es cr ps pr cs (n + 1) _ _ actors dh2
        (fun x hx => hnd x (List.mem_cons_of_mem _ hx))
        (fun x hx => hpres x (List.mem_cons_of_mem _ hx)) hrec]
      rw [List.map_append]
      have hlen : (dronePacketSend ps d.connected_node_ids []).length
          = d.connected_node_ids.length := by
        rw [dronePacketSend_length ps d.connected_node_ids []
          (hnd d (List.mem_cons_self d rest))
          (hpres d (List.mem_cons_self d rest)) (by simp [keysA])]
        simp
      simp [hlen, List.append_assoc]

theorem droneGen_dh_keys (ds : List ConfigDrone) :
    ∀ es cr ps pr cs n acc dh actors dh2,
      (ds.map (·.id)).Nodup →
      (∀ d ∈ ds, d.id ∉ keysA dh) →
      droneGen es cr ps pr cs ds n acc dh = .ok (actors, dh2) →
      keysA dh2 = keysA dh ++ ds.map (·.id) := by
  induction ds with
  | nil =>
      intro es cr ps pr cs n acc dh actors dh2 _ _ h
      obtain ⟨_, h2⟩ := droneGen_nil_ok h
      simp [h2]
  | cons d rest ih =>
      intro es cr ps pr cs n acc dh actors dh2 hnd hfresh h
      simp only [List.map_cons, List.nodup_cons] at hnd
      obtain ⟨v, prc, crc, pks, cmds, _, _, _, _, _, hrec⟩ := droneGen_cons_ok h
      have hfr : d.id ∉ keysA dh := hfresh d (List.mem_cons_self d rest)
      rw [ih es cr ps pr cs (n + 1) _ _ actors dh2 hnd.2
        (fun x hx hmem => by
          rw [keysA_insertA_fresh _ hfr] at hmem
          rcases List.mem_append.mp hmem with h2 | h2
          · exact hfresh x (List.mem_cons_of_mem _ hx) h2
          · have hx2 : x.id = d.id := by simpa using h2
            exact hnd.1 (hx2 ▸ List.mem_map.mpr ⟨x, hx, rfl⟩)) hrec]
      rw [keysA_insertA_fresh _ hfr]
      simp [List.append_assoc]

theorem droneGen_over (ds : List ConfigDrone) :
    ∀ es cr ps pr cs n acc dh,
      (∀ d ∈ ds, (getA ps d.id).isSome = true ∧ (getA pr d.id).isSome = true ∧
        (getA cs d.id).isSome = true ∧ (getA cr d.id).isSome = true) →
      n ≤ 10 → 10 < n + ds.length →
      ∃ d0, ds[10 - n]? = some d0 ∧
        droneGen es cr ps pr cs ds n acc dh = .error (.noFactoryDefined d0.id) := by
  induction ds with
  | nil => intro es cr ps pr cs n acc dh _ hn hlen; simp at hlen; omega
  | cons d rest ih =>
      intro es cr ps pr cs n acc dh hpres hn hlen
      by_cases hn10 : n = 10
      · subst hn10
        refine ⟨d, by simp, ?_⟩
        have hf : drone_factories[10]? = none := by rfl
        simp [droneGen, hf]
      · have hnlt : n < 10 := by omega
        have hf : drone_factories[n]? = some .rustRoveri := by
          interval_cases n <;> rfl
        obtain ⟨h1, h2, h3, h4⟩ := hpres d (List.mem_cons_self d rest)
        obtain ⟨pks, hps⟩ := Option.isSome_iff_exists.mp h1
        obtain ⟨prc, hpr⟩ := Option.isSome_iff_exists.mp h2
        obtain ⟨cmds, hcs⟩ := Option.isSome_iff_exists.mp h3
        obtain ⟨crc, hcr⟩ := Option.isSome_iff_exists.mp h4
        obtain ⟨d0, hget, herr⟩ := ih es cr ps pr cs (n + 1) (acc ++
            [⟨d.id, .rustRoveri, es, crc, prc,
              dronePacketSend ps d.connected_node_ids [], d.pdr⟩])
          (insertA dh d.id (cmds, pks))
          (fun x hx => hpres x (List.mem_cons_of_mem _ hx))
          (by omega) (by simp at hlen ⊢; omega)
        refine ⟨d0, ?_, ?_⟩
        · rw [show 10 - n = (10 - (n + 1)) + 1 by omega, List.getElem?_cons_succ]
          exact hget
        · simp only [droneGen, hf, hpr, hcr, hps, hcs]
          exact herr

theorem neighborPacketSend_ok_length (ps : AList Sender) (ns : List Nat) :
    ∀ acc out, neighborPacketSend ps ns acc = .ok out → ns.Nodup →
      (∀ nb ∈ ns, nb ∉ keysA acc) → out.length = acc.length + ns.length := by
  induction ns with
  | nil =>
      intro acc out h _ _
      simp only [neighborPacketSend, Except.ok.injEq] at h
      simp [← h]
  | cons nb rest ih =>
      intro acc out h hnd hfresh
      simp only [List.nodup_cons] at hnd
      simp only [neighborPacketSend] at h
      cases hsv : getA ps nb with
      | none => simp [hsv] at h
      | some sv =>
          simp only [hsv] at h
          rw [insertA_fresh sv (hfresh nb (List.mem_cons_self nb rest))] at h
          rw [ih (acc ++ [(nb, sv)]) out h hnd.2
            (fun x hx => by
              rw [keysA_append]
              intro hmem
              rcases List.mem_append.mp hmem with h2 | h2
              · exact hfresh x (List.mem_cons_of_mem _ hx) h2
              · have : x = nb := by simpa [keysA] using h2
                exact hnd.1 (this ▸ hx))]
          simp only [List.length_append, List.length_cons, List.length_nil]
          omega

theorem neighborPacketSend_err (ps : AList Sender) (ns : List Nat) :
    ∀ acc, (∃ nb ∈ ns, getA ps nb = none) →
      ∀ out, neighborPacketSend ps ns acc ≠ .ok out := by
  induction ns with
  | nil => intro acc hex out; simp at hex
  | cons nb rest ih =>
      intro acc hex out h
      obtain ⟨x, hx, hxnone⟩ := hex
      cases hsv : getA ps nb with
      | none => simp [neighborPacketSend, hsv] at h
      | some sv =>
          simp only [neighborPacketSend, hsv] at h
          rcases List.mem_cons.mp hx with h2 | h2
          · rw [h2] at hxnone
            rw [hxnone] at hsv
            exact absurd hsv (by simp)
          · exact ih (insertA acc nb sv) ⟨x, h2, hxnone⟩ out h

theorem clientGen_nil_ok {half : Nat} {ces mes : Sender} {ccr mcr : AList Receiver}
    {pr : AList Receiver} {ps : AList Sender} {cnt : Nat}
    {chats chats2 : List ChatClientActor} {medias medias2 : List MediaClientActor}
    {nb nb2 : AList (List Nat)}
    (h : clientGen half ces mes ccr mcr pr ps [] cnt chats medias nb
      = .ok (chats2, medias2, nb2)) :
    chats2 = chats ∧ medias2 = medias ∧ nb2 = nb := by
  simp only [clientGen, Except.ok.injEq, Prod.mk.injEq] at h
  exact ⟨h.1.symm, h.2.1.symm, h.2.2.symm⟩

theorem clientGen_cons_ok_chat {half : Nat} {ces mes : Sender}
    {ccr mcr : AList Receiver} {pr : AList Receiver} {ps : AList Sender}
    {c : ConfigClient} {rest : List ConfigClient} {cnt : Nat}
    {chats chats2 : List ChatClientActor} {medias medias2 : List MediaClientActor}
    {nb nb2 : AList (List Nat)} (hc : cnt < half)
    (h : clientGen half ces mes ccr mcr pr ps (c :: rest) cnt chats medias nb
      = .ok (chats2, medias2, nb2)) :
    ∃ cps crc prc,
      neighborPacketSend ps c.connected_drone_ids [] = .ok cps ∧
      getA ccr c.id = some crc ∧ getA pr c.id = some prc ∧
      clientGen half ces mes ccr mcr pr ps rest (cnt + 1)
        (chats ++ [⟨c.id, ces, crc, prc, cps⟩]) medias
        (insertA nb c.id c.connected_drone_ids) = .ok (chats2, medias2, nb2) := by
  simp only [clientGen] at h
  cases hcps : neighborPacketSend ps c.connected_drone_ids [] with
  | error e => simp [hcps] at h
  | ok cps =>
      simp only [hcps, if_pos hc] at h
      cases hcrc : getA ccr c.id with
      | none => simp [hcrc] at h
      | some crc =>
          simp only [hcrc] at h
          cases hprc : getA pr c.id with
          | none => simp [hprc] at h
          | some prc =>
              simp only [hprc] at h
              exact ⟨cps, crc, prc, rfl, rfl, rfl, h⟩

theorem clientGen_cons_ok_media {half : Nat} {ces mes : Sender}
    {ccr mcr : AList Receiver} {pr : AList Receiver} {ps : AList Sender}
    {c : ConfigClient} {rest : List ConfigClient} {cnt : Nat}
    {chats chats2 : List ChatClientActor} {medias medias2 : List MediaClientActor}
    {nb nb2 : AList (List Nat)} (hc : ¬ cnt < half)
    (h : clientGen half ces mes ccr mcr pr ps (c :: rest) cnt chats medias nb
      = .ok (chats2, medias2, nb2)) :
    ∃ cps crc prc,
      neighborPacketSend ps c.connected_drone_ids [] = .ok cps ∧
      getA mcr c.id = some crc ∧ getA pr c.id = some prc ∧
      clientGen half ces mes ccr mcr pr ps rest (cnt + 1)
        chats (medias ++ [⟨c.id, mes, crc, prc, cps⟩])
        (insertA nb c.id c.connected_drone_ids) = .ok (chats2, medias2, nb2) := by
  simp only [clientGen] at h
  cases hcps : neighborPacketSend ps c.connected_drone_ids [] with
  | error e => simp [hcps] at h
  | ok cps =>
      simp only [hcps, if_neg hc] at h
      cases hcrc : getA mcr c.id with
      | none => simp [hcrc] at h
      | some crc =>
          simp only [hcrc] at h
          cases hprc : getA pr c.id with
          | none => simp [hprc] at h
          | some prc =>
              simp only [hprc] at h
              exact ⟨cps, crc, prc, rfl, rfl, rfl, h⟩

theorem clientGen_ids (cs : List ConfigClient) :
    ∀ half ces mes ccr mcr pr ps cnt chats medias nb chats2 medias2 nb2,
      clientGen half ces mes ccr mcr pr ps cs cnt chats medias nb
        = .ok (chats2, medias2, nb2) →
      chats2.map (·.id) = chats.map (·.id) ++ (cs.take (half - cnt)).map (·.id) ∧
      medias2.map (·.id) = medias.map (·.id) ++ (cs.drop (half - cnt)).map (·.id) := by
  induction cs with
  | nil =>
      intro half ces mes ccr mcr pr ps cnt chats medias nb chats2 medias2 nb2 h
      obtain ⟨h1, h2, _⟩ := clientGen_nil_ok h
      simp [h1, h2]
  | cons c rest ih =>
      intro half ces mes ccr mcr pr ps cnt chats medias nb chats2 medias2 nb2 h
      by_cases hc : cnt < half
      · obtain ⟨cps, crc, prc, _, _, _, hrec⟩ := clientGen_cons_ok_chat hc h
        obtain ⟨r1, r2⟩ := ih half ces mes ccr mcr pr ps (cnt + 1) _ _ _ _ _ _ hrec
        have hsub : half - cnt = (half - (cnt + 1)) + 1 := by omega
        rw [hsub, List.take_succ_cons, List.drop_succ_cons]
        constructor
        · rw [r1]; simp [List.append_assoc]
        · rw [r2]
      · obtain ⟨cps, crc, prc, _, _, _, hrec⟩ := clientGen_cons_ok_media hc h
        obtain ⟨r1, r2⟩ := ih half ces mes ccr mcr pr ps (cnt + 1) _ _ _ _ _ _ hrec
        have hsub1 : half - cnt = 0 := by omega
        have hsub2 : half - (cnt + 1) = 0 := by omega
        rw [hsub2] at r1 r2
        rw [hsub1]
        constructor
        · rw [r1]; simp
        · rw [r2]; simp [List.append_assoc]

theorem clientGen_recv (cs : List ConfigClient) :
    ∀ half ces mes ccr mcr pr ps cnt chats medias nb chats2 medias2 nb2,
      clientGen half ces mes ccr mcr pr ps cs cnt chats medias nb
        = .ok (chats2, medias2, nb2) →
      (∀ a ∈ chats2, a ∈ chats ∨ getA pr a.id = some a.packet_recv) ∧
      (∀ a ∈ medias2, a ∈ medias ∨ getA pr a.id = some a.packet_recv) := by
  induction cs with
  | nil =>
      intro half ces mes ccr mcr pr ps cnt chats medias nb chats2 medias2 nb2 h
      obtain ⟨h1, h2, _⟩ := clientGen_nil_ok h
      exact ⟨fun a ha => Or.inl (h1 ▸ ha), fun a ha => Or.inl (h2 ▸ ha)⟩
  | cons c rest ih =>
      intro half ces mes ccr mcr pr ps cnt chats medias nb chats2 medias2 nb2 h
      by_cases hc : cnt < half
      · obtain ⟨cps, crc, prc, _, _, hprc, hrec⟩ := clientGen_cons_ok_chat hc h
        obtain ⟨r1, r2⟩ := ih half ces mes ccr mcr pr ps (cnt + 1) _ _ _ _ _ _ hrec
        constructor
        · intro a ha
          rcases r1 a ha with h2 | h2
          · rcases List.mem_append.mp h2 with h3 | h3
            · exact Or.inl h3
            · right
              have ha2 : a = ⟨c.id, ces, crc, prc, cps⟩ := by simpa using h3
              rw [ha2]
              exact hprc
          · exact Or.inr h2
        · exact r2
      · obtain ⟨cps, crc, prc, _, _, hprc, hrec⟩ := clientGen_cons_ok_media hc h
        obtain ⟨r1, r2⟩ := ih half ces mes ccr mcr pr ps (cnt + 1) _ _ _ _ _ _ hrec
        constructor
        · exact r1
        · intro a ha
          rcases r2 a ha with h2 | h2
          · rcases List.mem_append.mp h2 with h3 | h3
            · exact Or.inl h3
            · right
              have ha2 : a = ⟨c.id, mes, crc, prc, cps⟩ := by simpa using h3
              rw [ha2]
              exact hprc
          · exact Or.inr h2

theorem clientGen_sumlen (cs : List ConfigClient) :
    ∀ half ces mes ccr mcr pr ps cnt chats medias nb chats2 medias2 nb2,
      (∀ c ∈ cs, c.connected_drone_ids.Nodup) →
      clientGen half ces mes ccr mcr pr ps cs cnt chats medias nb
        = .ok (chats2, medias2, nb2) →
      (chats2.map (·.packet_send.length)).sum + (medias2.map (·.packet_send.length)).sum
        = (chats.map (·.packet_send.length)).sum + (medias.map (·.packet_send.length)).sum
          + (cs.map (·.connected_drone_ids.length)).sum := by
  induction cs with
  | nil =>
      intro half ces mes ccr mcr pr ps cnt chats medias nb chats2 medias2 nb2 _ h
      obtain ⟨h1, h2, _⟩ := clientGen_nil_ok h
      simp [h1, h2]
  | cons c rest ih =>
      intro half ces mes ccr mcr pr ps cnt chats medias nb chats2 medias2 nb2 hnd h
      by_cases hc : cnt < half
      · obtain ⟨cps, crc, prc, hcps, _, _, hrec⟩ := clientGen_cons_ok_chat hc h
        have r := ih half ces mes ccr mcr pr ps (cnt + 1) _ _ _ _ _ _
          (fun x hx => hnd x (List.mem_cons_of_mem _ hx)) hrec
        have hlen : cps.length = c.connected_drone_ids.length := by
          have := neighborPacketSend_ok_length ps c.connected_drone_ids [] cps hcps
            (hnd c (List.mem_cons_self c rest)) (by simp [keysA])
          simpa using this
        rw [r]
        simp [hlen]
        omega
      · obtain ⟨cps, crc, prc, hcps, _, _, hrec⟩ := clientGen_cons_ok_media hc h
        have r := ih half ces mes ccr mcr pr ps (cnt + 1) _ _ _ _ _ _
          (fun x hx => hnd x (List.mem_cons_of_mem _ hx)) hrec
        have hlen : cps.length = c.connected_drone_ids.length := by
          have := neighborPacketSend_ok_length ps c.connected_drone_ids [] cps hcps
            (hnd c (List.mem_cons_self c rest)) (by simp [keysA])
          simpa using this
        rw [r]
        simp [hlen]
        omega

theorem clientGen_err (cs : List ConfigClient) :
    ∀ half ces mes ccr mcr pr ps cnt chats medias nb,
      (∃ c ∈ cs, ∃ x ∈ c.connected_drone_ids, getA ps x = none) →
      ∀ out, clientGen half ces mes ccr mcr pr ps cs cnt chats medias nb ≠ .ok out := by
  induction cs with
  | nil => intro half ces mes ccr mcr pr ps cnt chats medias nb hex out; simp at hex
  | cons c rest ih =>
      intro half ces mes ccr mcr pr ps cnt chats medias nb hex out h
      obtain ⟨c0, hc0, hx⟩ := hex
      simp only [clientGen] at h
      cases hcps : neighborPacketSend ps c.connected_drone_ids [] with
      | error e => simp [hcps] at h
      | ok cps =>
          simp only [hcps] at h
          rcases List.mem_cons.mp hc0 with h2 | h2
          · exact neighborPacketSend_err ps c.connected_drone_ids [] (h2 ▸ hx) cps hcps
          · by_cases hc : cnt < half
            · simp only [if_pos hc] at h
              cases hcrc : getA ccr c.id with
              | none => simp [hcrc] at h
              | some crc =>
                  simp only [hcrc] at h
                  cases hprc : getA pr c.id with
                  | none => simp [hprc] at h
                  | some prc =>
                      simp only [hprc] at h
                      exact ih half ces mes ccr mcr pr ps (cnt + 1) _ _ _
                        ⟨c0, h2, hx⟩ out h
            · simp only [if_neg hc] at h
              cases hcrc : getA mcr c.id with
              | none => simp [hcrc] at h
              | some crc =>
                  simp only [hcrc] at h
                  cases hprc : getA pr c.id with
                  | none => simp [hprc] at h
                  | some prc =>
                      simp only [hprc] at h
                      exact ih half ces mes ccr mcr pr ps (cnt + 1) _ _ _
                        ⟨c0, h2, hx⟩ out h

theorem serverGen_nil_ok {ses : Sender} {csr : AList Receiver}
    {pr : AList Receiver} {ps : AList Sender} {servers servers2 : List CommServerActor}
    {nb nb2 : AList (List Nat)}
    (h : serverGen ses csr pr ps [] servers nb = .ok (servers2, nb2)) :
    servers2 = servers ∧ nb2 = nb := by
  simp only [serverGen, Except.ok.injEq, Prod.mk.injEq] at h
  exact ⟨h.1.symm, h.2.symm⟩

theorem serverGen_cons_ok {ses : Sender} {csr : AList Receiver}
    {pr : AList Receiver} {ps : AList Sender} {s : ConfigServer}
    {rest : List ConfigServer} {servers servers2 : List CommServerActor}
    {nb nb2 : AList (List Nat)}
    (h : serverGen ses csr pr ps (s :: rest) servers nb = .ok (servers2, nb2)) :
    ∃ sps prc erc,
      neighborPacketSend ps s.connected_drone_ids [] = .ok sps ∧
      getA pr s.id = some prc ∧ getA csr s.id = some erc ∧
      serverGen ses csr pr ps rest (servers ++ [⟨s.id, prc, sps, ses, erc⟩])
        (insertA nb s.id s.connected_drone_ids) = .ok (servers2, nb2) := by
  simp only [serverGen] at h
  cases hsps : neighborPacketSend ps s.connected_drone_ids [] with
  | error e => simp [hsps] at h
  | ok sps =>
      simp only [hsps] at h
      cases hprc : getA pr s.id with
      | none => simp [hprc] at h
      | some prc =>
          simp only [hprc] at h
          cases herc : getA csr s.id with
          | none => simp [herc] at h
          | some erc =>
              simp only [herc] at h
              exact ⟨sps, prc, erc, rfl, rfl, rfl, h⟩

theorem serverGen_ids (ss : List ConfigServer) :
    ∀ ses csr pr ps servers nb servers2 nb2,
      serverGen ses csr pr ps ss servers nb = .ok (servers2, nb2) →
      servers2.map (·.id) = servers.map (·.id) ++ ss.map (·.id) := by
  induction ss with
  | nil =>
      intro ses csr pr ps servers nb servers2 nb2 h
      obtain ⟨h1, _⟩ := serverGen_nil_ok h
      simp [h1]
  | cons s rest ih =>
      intro ses csr pr ps servers nb servers2 nb2 h
      obtain ⟨sps, prc, erc, _, _, _, hrec⟩ := serverGen_cons_ok h
      rw [ih ses csr pr ps _ _ servers2 nb2 hrec]
      simp [List.append_assoc]

theorem serverGen_evrecv (ss : List ConfigServer) :
    ∀ ses csr pr ps servers nb servers2 nb2 ev,
      (∀ p ∈ csr, Prod.snd p = ev) →
      serverGen ses csr pr ps ss servers nb = .ok (servers2, nb2) →
      ∀ a ∈ servers2, a ∈ servers ∨ a.comm_server_recv = ev := by
  induction ss with
  | nil =>
      intro ses csr pr ps servers nb servers2 nb2 ev _ h a ha
      obtain ⟨h1, _⟩ := serverGen_nil_ok h
      exact Or.inl (h1 ▸ ha)
  | cons s rest ih =>
      intro ses csr pr ps servers nb servers2 nb2 ev hev h a ha
      obtain ⟨sps, prc, erc, _, _, herc, hrec⟩ := serverGen_cons_ok h
      rcases ih ses csr pr ps _ _ servers2 nb2 ev hev hrec a ha with h2 | h2
      · rcases List.mem_append.mp h2 with h3 | h3
        · exact Or.inl h3
        · right
          have ha2 : a = ⟨s.id, prc, sps, ses, erc⟩ := by simpa using h3
          rw [ha2]
          exact hev (s.id, erc) (getA_mem herc)
      · exact Or.inr h2

theorem serverGen_recv (ss : List ConfigServer) :
    ∀ ses csr pr ps servers nb servers2 nb2,
      serverGen ses csr pr ps ss servers nb = .ok (servers2, nb2) →
      ∀ a ∈ servers2, a ∈ servers ∨ getA pr a.id = some a.packet_recv := by
  induction ss with
  | nil =>
      intro ses csr pr ps servers nb servers2 nb2 h a ha
      obtain ⟨h1, _⟩ := serverGen_nil_ok h
      exact Or.inl (h1 ▸ ha)
  | cons s rest ih =>
      intro ses csr pr ps servers nb servers2 nb2 h a ha
      obtain ⟨sps, prc, erc, _, hprc, _, hrec⟩ := serverGen_cons_ok h
      rcases ih ses csr pr ps _ _ servers2 nb2 hrec a ha with h2 | h2
      · rcases List.mem_append.mp h2 with h3 | h3
        · exact Or.inl h3
        · right
          have ha2 : a = ⟨s.id, prc, sps, ses, erc⟩ := by simpa using h3
          rw [ha2]
          exact hprc
      · exact Or.inr h2

theorem serverGen_sumlen (ss : List ConfigServer) :
    ∀ ses csr pr ps servers nb servers2 nb2,
      (∀ s ∈ ss, s.connected_drone_ids.Nodup) →
      serverGen ses csr pr ps ss servers nb = .ok (servers2, nb2) →
      (servers2.map (·.packet_send.length)).sum
        = (servers.map (·.packet_send.length)).sum
          + (ss.map (·.connected_drone_ids.length)).sum := by
  induction ss with
  | nil =>
      intro ses csr pr ps servers nb servers2 nb2 _ h
      obtain ⟨h1, _⟩ := serverGen_nil_ok h
      simp [h1]
  | cons s rest ih =>
      intro ses csr pr ps servers nb servers2 nb2 hnd h
      obtain ⟨sps, prc, erc, hsps, _, _, hrec⟩ := serverGen_cons_ok h
      have r := ih ses csr pr ps _ _ servers2 nb2
        (fun x hx => hnd x (List.mem_cons_of_mem _ hx)) hrec
      have hlen : sps.length = s.connected_drone_ids.length := by
        have := neighborPacketSend_ok_length ps s.connected_drone_ids [] sps hsps
          (hnd s (List.mem_cons_self s rest)) (by simp [keysA])
        simpa using this
      rw [r]
      simp [hlen]
      omega

theorem serverGen_err (ss : List ConfigServer) :
    ∀ ses csr pr ps servers nb,
      (∃ s ∈ ss, ∃ x ∈ s.connected_drone_ids, getA ps x = none) →
      ∀ out, serverGen ses csr pr ps ss servers nb ≠ .ok out := by
  induction ss with
  | nil => intro ses csr pr ps servers nb hex out; simp at hex
  | cons s rest ih =>
      intro ses csr pr ps servers nb hex out h
      obtain ⟨s0, hs0, hx⟩ := hex
      simp only [serverGen] at h
      cases hsps : neighborPacketSend ps s.connected_drone_ids [] with
      | error e => simp [hsps] at h
      | ok sps =>
          simp only [hsps] at h
          rcases List.mem_cons.mp hs0 with h2 | h2
          · exact neighborPacketSend_err ps s.connected_drone_ids [] (h2 ▸ hx) sps hsps
          · cases hprc : getA pr s.id with
            | none => simp [hprc] at h
            | some prc =>
                simp only [hprc] at h
                cases herc : getA csr s.id with
                | none => simp [herc] at h
                | some erc =>
                    simp only [herc] at h
                    exact ih ses csr pr ps _ _ ⟨s0, h2, hx⟩ out h

/-! Whole-build lemmas. -/

theorem buildModel_ok_inv {cfg : Config} {r : BuildResult}
    (h : buildModel cfg = .ok r) :
    ∃ drones dh chats medias nb1 servers nb2,
      droneGen ⟨0⟩ (dOutOf cfg).command_recv (cOutOf cfg).packet_send
        (cOutOf cfg).packet_recv (dOutOf cfg).command_send cfg.drone 0 [] []
        = .ok (drones, dh) ∧
      clientGen (halfOf cfg) ⟨(sOutOf cfg).ctr⟩ ⟨(sOutOf cfg).ctr + 1⟩
        (cOutOf cfg).cclient_recv (cOutOf cfg).mclient_recv
        (cOutOf cfg).packet_recv (cOutOf cfg).packet_send
        cfg.client 0 [] [] (droneNeighborMap cfg.drone [])
        = .ok (chats, medias, nb1) ∧
      serverGen ⟨(dOutOf cfg).ctr⟩ (sOutOf cfg).comm_server_recv
        (cOutOf cfg).packet_recv (cOutOf cfg).packet_send cfg.server [] nb1
        = .ok (servers, nb2) ∧
      r =
        { packet_send := (cOutOf cfg).packet_send
          packet_recv := (cOutOf cfg).packet_recv
          command_send := (dOutOf cfg).command_send
          command_recv := (dOutOf cfg).command_recv
          cclient_recv := (cOutOf cfg).cclient_recv
          mclient_recv := (cOutOf cfg).mclient_recv
          comm_server_recv := (sOutOf cfg).comm_server_recv
          drones
          chat_clients := chats
          media_clients := medias
          communication_servers := servers
          controller :=
            { drones_hashmap := dh
              event_recv := ⟨0⟩
              neighbor := nb2
              event_send := ⟨0⟩
              gui_event_send := ⟨(cOutOf cfg).ctr + 1⟩
              gui_command_recv := ⟨(cOutOf cfg).ctr⟩
              cclient_send := (cOutOf cfg).cclient_send
              cclient_event_recv := ⟨(sOutOf cfg).ctr⟩
              mclient_send := (cOutOf cfg).mclient_send
              mclient_event_recv := ⟨(sOutOf cfg).ctr + 1⟩
              comm_server_send := (sOutOf cfg).comm_server_send
              comm_server_event_recv := ⟨(dOutOf cfg).ctr⟩ }
          gui_send := ⟨(cOutOf cfg).ctr + 1⟩
          gui_event_recv := ⟨(cOutOf cfg).ctr + 1⟩
          gui_command_send := ⟨(cOutOf cfg).ctr⟩ } := by
  simp only [buildModel] at h
  cases hd : droneGen ⟨0⟩ (dOutOf cfg).command_recv (cOutOf cfg).packet_send
      (cOutOf cfg).packet_recv (dOutOf cfg).command_send cfg.drone 0 [] [] with
  | error e => simp [hd] at h
  | ok val =>
      obtain ⟨drones, dh⟩ := val
      simp only [hd] at h
      cases hc : clientGen (halfOf cfg) ⟨(sOutOf cfg).ctr⟩ ⟨(sOutOf cfg).ctr + 1⟩
          (cOutOf cfg).cclient_recv (cOutOf cfg).mclient_recv
          (cOutOf cfg).packet_recv (cOutOf cfg).packet_send
          cfg.client 0 [] [] (droneNeighborMap cfg.drone []) with
      | error e => simp [hc] at h
      | ok val2 =>
          obtain ⟨chats, medias, nb1⟩ := val2
          simp only [hc] at h
          cases hs : serverGen ⟨(dOutOf cfg).ctr⟩ (sOutOf cfg).comm_server_recv
              (cOutOf cfg).packet_recv (cOutOf cfg).packet_send cfg.server [] nb1 with
          | error e => simp [hs] at h
          | ok val3 =>
              obtain ⟨servers, nb2⟩ := val3
              simp only [hs, Except.ok.injEq] at h
              exact ⟨drones, dh, chats, medias, nb1, servers, nb2, rfl, rfl, hs, h.symm⟩

theorem packetSend_keys_sub (cfg : Config) :
    ∀ j, j ∈ keysA (cOutOf cfg).packet_send → j ∈ declaredIds cfg := by
  intro j h
  rcases clientChannels_ps_keys_sub cfg.client (halfOf cfg) 0 ((sOutOf cfg).ctr + 2)
      _ _ _ _ _ _ j h with h2 | h2
  · rcases serverChannels_ps_keys_sub cfg.server ⟨(dOutOf cfg).ctr⟩
        ((dOutOf cfg).ctr + 1) _ _ _ _ j h2 with h3 | h3
    · rcases droneChannels_ps_keys_sub cfg.drone 1 [] [] [] [] j h3 with h4 | h4
      · simp [keysA] at h4
      · exact List.mem_append.mpr (Or.inl (List.mem_append.mpr (Or.inl h4)))
    · exact List.mem_append.mpr (Or.inr h3)
  · exact List.mem_append.mpr (Or.inl (List.mem_append.mpr (Or.inr h2)))

theorem dronePresence (cfg : Config) :
    ∀ d ∈ cfg.drone,
      (getA (cOutOf cfg).packet_send d.id).isSome = true ∧
      (getA (cOutOf cfg).packet_recv d.id).isSome = true ∧
      (getA (dOutOf cfg).command_send d.id).isSome = true ∧
      (getA (dOutOf cfg).command_recv d.id).isSome = true := by
  intro d hd
  obtain ⟨h1, h2, h3, h4⟩ := droneChannels_registers cfg.drone 1 [] [] [] [] d hd
  obtain ⟨h5, h6⟩ := serverChannels_preserves_pkt cfg.server ⟨(dOutOf cfg).ctr⟩
    ((dOutOf cfg).ctr + 1) _ _ [] [] d.id h1 h2
  obtain ⟨h7, h8⟩ := clientChannels_preserves_pkt cfg.client (halfOf cfg) 0
    ((sOutOf cfg).ctr + 2) _ _ [] [] [] [] d.id h5 h6
  exact ⟨h7, h8, h3, h4⟩

theorem dOut_ctr (cfg : Config) :
    (dOutOf cfg).ctr = 1 + 2 * cfg.drone.length := by
  simp [dOutOf, droneChannels_ctr]

theorem sOut_ctr (cfg : Config) :
    (sOutOf cfg).ctr = 2 + 2 * cfg.drone.length + 2 * cfg.server.length := by
  simp only [sOutOf, serverChannels_ctr, dOut_ctr]
  omega

theorem cOut_ctr (cfg : Config) :
    (cOutOf cfg).ctr
      = 4 + 2 * cfg.drone.length + 2 * cfg.server.length + 2 * cfg.client.length := by
  simp only [cOutOf, clientChannels_ctr, sOut_ctr]
  omega

theorem declared_nodup_parts {cfg : Config} (hnd : (declaredIds cfg).Nodup) :
    (cfg.drone.map (·.id)).Nodup ∧ (cfg.client.map (·.id)).Nodup ∧
    (cfg.server.map (·.id)).Nodup ∧
    (∀ c ∈ cfg.client, c.id ∉ cfg.drone.map (·.id)) ∧
    (∀ s ∈ cfg.server, s.id ∉ cfg.drone.map (·.id)) ∧
    (∀ s ∈ cfg.server, s.id ∉ cfg.client.map (·.id)) := by
  unfold declaredIds at hnd
  rw [List.nodup_append] at hnd
  obtain ⟨hdc, hsv, hdisj⟩ := hnd
  rw [List.nodup_append] at hdc
  obtain ⟨hdr, hcl, hdisj2⟩ := hdc
  refine ⟨hdr, hcl, hsv, ?_, ?_, ?_⟩
  · intro c hc hmem
    exact hdisj2 hmem (List.mem_map.mpr ⟨c, hc, rfl⟩)
  · intro s hs hmem
    exact hdisj (List.mem_append.mpr (Or.inl hmem)) (List.mem_map.mpr ⟨s, hs, rfl⟩)
  · intro s hs hmem
    exact hdisj (List.mem_append.mpr (Or.inr hmem)) (List.mem_map.mpr ⟨s, hs, rfl⟩)

theorem channelTables_keys {cfg : Config} (hnd : (declaredIds cfg).Nodup) :
    keysA (cOutOf cfg).packet_send
      = cfg.drone.map (·.id) ++ cfg.server.map (·.id) ++ cfg.client.map (·.id) ∧
    keysA (cOutOf cfg).packet_recv
      = cfg.drone.map (·.id) ++ cfg.server.map (·.id) ++ cfg.client.map (·.id) ∧
    keysA (cOutOf cfg).cclient_send
      = (cfg.client.take (halfOf cfg)).map (·.id) ∧
    keysA (cOutOf cfg).mclient_send
      = (cfg.client.drop (halfOf cfg)).map (·.id) ∧
    keysA (sOutOf cfg).comm_server_send = cfg.server.map (·.id) := by
  obtain ⟨hdr, hcl, hsv, hcd, hsd, hsc⟩ := declared_nodup_parts hnd
  obtain ⟨d1, d2, d3, d4⟩ := droneChannels_keys cfg.drone 1 [] [] [] [] hdr
    (by simp [keysA]) (by simp [keysA]) (by simp [keysA]) (by simp [keysA])
  have d1' : keysA (dOutOf cfg).packet_send = cfg.drone.map (·.id) := by
    simp only [dOutOf]
    rw [d1]
    simp [keysA]
  have d2' : keysA (dOutOf cfg).packet_recv = cfg.drone.map (·.id) := by
    simp only [dOutOf]
    rw [d2]
    simp [keysA]
  have fs_ps : ∀ s ∈ cfg.server, s.id ∉ keysA (dOutOf cfg).packet_send := by
    intro s hs
    rw [d1']
    exact hsd s hs
  have fs_pr : ∀ s ∈ cfg.server, s.id ∉ keysA (dOutOf cfg).packet_recv := by
    intro s hs
    rw [d2']
    exact hsd s hs
  obtain ⟨s1, s2, s3, s4⟩ := serverChannels_keys cfg.server ⟨(dOutOf cfg).ctr⟩
    ((dOutOf cfg).ctr + 1) (dOutOf cfg).packet_send (dOutOf cfg).packet_recv [] []
    hsv fs_ps fs_pr (by simp [keysA]) (by simp [keysA])
  have s1' : keysA (sOutOf cfg).packet_send
      = cfg.drone.map (·.id) ++ cfg.server.map (·.id) := by
    simp only [sOutOf]
    rw [s1, d1']
  have s2' : keysA (sOutOf cfg).packet_recv
      = cfg.drone.map (·.id) ++ cfg.server.map (·.id) := by
    simp only [sOutOf]
    rw [s2, d2']
  have fc_ps : ∀ c ∈ cfg.client, c.id ∉ keysA (sOutOf cfg).packet_send := by
    intro c hc
    rw [s1']
    intro hmem
    rcases List.mem_append.mp hmem with h | h
    · exact hcd c hc h
    · obtain ⟨s, hs, hsid⟩ := List.mem_map.mp h
      exact hsc s hs (hsid ▸ List.mem_map.mpr ⟨c, hc, rfl⟩)
  have fc_pr : ∀ c ∈ cfg.client, c.id ∉ keysA (sOutOf cfg).packet_recv := by
    intro c hc
    rw [s2']
    intro hmem
    rcases List.mem_append.mp hmem with h | h
    · exact hcd c hc h
    · obtain ⟨s, hs, hsid⟩ := List.mem_map.mp h
      exact hsc s hs (hsid ▸ List.mem_map.mpr ⟨c, hc, rfl⟩)
  obtain ⟨c1, c2, c3, c4, c5, c6⟩ := clientChannels_keys cfg.client (halfOf cfg) 0
    ((sOutOf cfg).ctr + 2) (sOutOf cfg).packet_send (sOutOf cfg).packet_recv
    [] [] [] [] hcl fc_ps fc_pr
    (by simp [keysA]) (by simp [keysA]) (by simp [keysA]) (by simp [keysA])
  refine ⟨?_, ?_, ?_, ?_, ?_⟩
  · simp only [cOutOf]
    rw [c1, s1']
  · simp only [cOutOf]
    rw [c2, s2']
  · simp only [cOutOf]
    rw [c3]
    simp [keysA, halfOf]
  · simp only [cOutOf]
    rw [c5]
    simp [keysA, halfOf]
  · simp only [sOutOf]
    rw [s3]
    simp [keysA]

theorem packetRecv_bounds (cfg : Config) :
    ∀ p ∈ (cOutOf cfg).packet_recv,
      (1 ≤ p.2.ch ∧ p.2.ch < 1 + 2 * cfg.drone.length ∧ (p.2.ch - 1) % 2 = 0) ∨
      ((dOutOf cfg).ctr + 1 ≤ p.2.ch ∧
        p.2.ch < (dOutOf cfg).ctr + 1 + 2 * cfg.server.length ∧
        (p.2.ch - ((dOutOf cfg).ctr + 1)) % 2 = 1) ∨
      ((sOutOf cfg).ctr + 2 ≤ p.2.ch ∧
        p.2.ch < (sOutOf cfg).ctr + 2 + 2 * cfg.client.length ∧
        (p.2.ch - ((sOutOf cfg).ctr + 2)) % 2 = 1) := by
  intro p hp
  rcases clientChannels_pr_bounds cfg.client (halfOf cfg) 0 ((sOutOf cfg).ctr + 2)
      _ _ _ _ _ _ p hp with h | h
  · rcases serverChannels_pr_bounds cfg.server ⟨(dOutOf cfg).ctr⟩
        ((dOutOf cfg).ctr + 1) _ _ _ _ p h with h2 | h2
    · rcases droneChannels_pr_bounds cfg.drone 1 [] [] [] [] p h2 with h3 | h3
      · simp at h3
      · exact Or.inl h3
    · exact Or.inr (Or.inl h2)
  · exact Or.inr (Or.inr h)

theorem commServerRecv_values (cfg : Config) :
    ∀ p ∈ (sOutOf cfg).comm_server_recv, p.2 = (⟨(dOutOf cfg).ctr⟩ : Receiver) := by
  intro p hp
  rcases serverChannels_csr_values cfg.server ⟨(dOutOf cfg).ctr⟩
      ((dOutOf cfg).ctr + 1) _ _ _ _ p hp with h | h
  · simp at h
  · exact h

theorem attemptJoins_all (l : List Step) (outcome : Step → Bool)
    (h : ∀ s ∈ l, outcome s = true) : attemptJoins l outcome = l := by
  induction l with
  | nil => rfl
  | cons s rest ih =>
      simp only [attemptJoins, h s (List.mem_cons_self s rest), if_pos]
      rw [ih (fun x hx => h x (List.mem_cons_of_mem _ hx))]

/-! Claim theorems. -/

/-- Claim C1, counterexample: a drone declaring the undeclared neighbor 99
does not make the boot fail — the build succeeds, threads are spawned, and
the drone is silently constructed with an empty neighbor sender map. -/
theorem C1_counterexample :
    (∃ d ∈ cfgDroneDangling.drone, ∃ nb ∈ d.connected_node_ids,
      nb ∉ declaredIds cfgDroneDangling) ∧
    buildOk cfgDroneDangling = true ∧
    spawnedUnits cfgDroneDangling ≠ [] ∧
    (buildD cfgDroneDangling).drones.map (·.packet_send) = [[]] := by
  decide

/-- Claim C1, amended: when the dangling neighbor id appears in a client's or
a server's adjacency list, the boot sequence does fail before any actor
thread is spawned (the lookup `packet_send.get(neighbor).unwrap()` panics);
only a drone's dangling neighbor is silently skipped. -/
theorem C1_dangling_client_or_server_fails (cfg : Config)
    (h : (∃ c ∈ cfg.client, ∃ nb ∈ c.connected_drone_ids, nb ∉ declaredIds cfg) ∨
         (∃ s ∈ cfg.server, ∃ nb ∈ s.connected_drone_ids, nb ∉ declaredIds cfg)) :
    buildOk cfg = false ∧ spawnedUnits cfg = [] := by
  suffices hs : ∀ r, buildModel cfg ≠ .ok r by
    cases hb : buildModel cfg with
    | error e => simp [buildOk, spawnedUnits, hb]
    | ok r => exact absurd hb (hs r)
  intro r hok
  obtain ⟨drones, dh, chats, medias, nb1, servers, nb2, hd, hc, hsrv, hr⟩ :=
    buildModel_ok_inv hok
  have hnone : ∀ x, x ∉ declaredIds cfg → getA (cOutOf cfg).packet_send x = none := by
    intro x hx
    apply getA_eq_none
    intro hmem
    exact hx (packetSend_keys_sub cfg x hmem)
  rcases h with ⟨c, hcmem, nb, hnb, hnb2⟩ | ⟨s, hsmem, nb, hnb, hnb2⟩
  · exact clientGen_err cfg.client (halfOf cfg) _ _ _ _ _ _ 0 [] [] _
      ⟨c, hcmem, nb, hnb, hnone nb hnb2⟩ _ hc
  · exact serverGen_err cfg.server _ _ _ _ [] nb1
      ⟨s, hsmem, nb, hnb, hnone nb hnb2⟩ _ hsrv

/-- Claim C1, witness: the amended theorem at a concrete topology whose
client declares the undeclared neighbor 99. -/
theorem C1_witness :
    ((∃ c ∈ cfgClientDangling.client, ∃ nb ∈ c.connected_drone_ids,
        nb ∉ declaredIds cfgClientDangling) ∨
     (∃ s ∈ cfgClientDangling.server, ∃ nb ∈ s.connected_drone_ids,
        nb ∉ declaredIds cfgClientDangling)) ∧
    (buildOk cfgClientDangling = false ∧ spawnedUnits cfgClientDangling = []) :=
  ⟨by decide, C1_dangling_client_or_server_fails cfgClientDangling (by decide)⟩

/-- Claim C2, counterexample: on a two-drone topology, if the first join
(`drone_handles[0].join()`) returns an error, the `unwrap()` panic stops the
join sequence: drone 2 and the controller are never joined. -/
theorem C2_counterexample :
    joinSteps (buildD cfgTwoDrones)
      = [Step.joinDrone 1, Step.joinDrone 2, Step.joinController] ∧
    attemptJoins (joinSteps (buildD cfgTwoDrones)) failFirstJoin
      = [Step.joinDrone 1] := by
  decide

/-- Claim C2, amended: every spawned unit (each drone, chat client, media
client, server, and the controller) has a join in the shutdown sequence, and
when every join succeeds all of them are joined; but a join that returns an
error panics through `unwrap()` and the remaining joins are not attempted. -/
theorem C2_joins_all_when_ok (cfg : Config) (outcome : Step → Bool)
    (h : ∀ s ∈ joinSteps (buildD cfg), outcome s = true) :
    attemptJoins (joinSteps (buildD cfg)) outcome = joinSteps (buildD cfg) ∧
    (joinSteps (buildD cfg)).length = (spawnSteps (buildD cfg)).length := by
  constructor
  · exact attemptJoins_all _ outcome h
  · simp [joinSteps, spawnSteps]
    omega

/-- Claim C2, witness: with all-successful outcomes on a concrete full
topology every unit is joined. -/
theorem C2_witness :
    (∀ s ∈ joinSteps (buildD cfgFull), (fun (_ : Step) => true) s = true) ∧
    (attemptJoins (joinSteps (buildD cfgFull)) (fun _ => true)
        = joinSteps (buildD cfgFull) ∧
      (joinSteps (buildD cfgFull)).length = (spawnSteps (buildD cfgFull)).length) :=
  ⟨by decide, C2_joins_all_when_ok cfgFull (fun _ => true) (by decide)⟩

/-- Claim C3, counterexample: after building a one-drone topology, channel 1
is drone 1's inbound packet channel and two consumer ends of it exist — the
clone inside the drone actor and the entry the builder's `packet_recv` table
still holds — refuting "exactly one consumer end exists". -/
theorem C3_counterexample :
    getA (buildD cfgOneDrone).packet_recv 1 = some ⟨1⟩ ∧
    (buildD cfgOneDrone).drones.map (·.packet_recv) = [⟨1⟩] ∧
    consumersOf (buildD cfgOneDrone) 1 = 2 := by
  decide

/-- Claim C3, amended: the consumer end moved into each owning actor is a
clone, not a move: after a successful build the builder's `packet_recv`
table still maps every constructed actor's id to a consumer of the same
channel the actor consumes, so the inbound consumer end is duplicated rather
than exclusively owned. -/
theorem C3_consumer_cloned (cfg : Config) (r : BuildResult)
    (h : buildModel cfg = .ok r) :
    (∀ a ∈ r.drones, getA r.packet_recv a.id = some a.packet_recv) ∧
    (∀ a ∈ r.chat_clients, getA r.packet_recv a.id = some a.packet_recv) ∧
    (∀ a ∈ r.media_clients, getA r.packet_recv a.id = some a.packet_recv) ∧
    (∀ a ∈ r.communication_servers, getA r.packet_recv a.id = some a.packet_recv) := by
  obtain ⟨drones, dh, chats, medias, nb1, servers, nb2, hd, hc, hsrv, hr⟩ :=
    buildModel_ok_inv h
  subst hr
  obtain ⟨hcc, hmc⟩ := clientGen_recv cfg.client (halfOf cfg) _ _ _ _ _ _ 0
    [] [] _ chats medias nb1 hc
  refine ⟨?_, ?_, ?_, ?_⟩
  · intro a ha
    rcases droneGen_recv cfg.drone _ _ _ _ _ 0 [] [] drones dh hd a ha with h2 | h2
    · simp at h2
    · exact h2
  · intro a ha
    rcases hcc a ha with h2 | h2
    · simp at h2
    · exact h2
  · intro a ha
    rcases hmc a ha with h2 | h2
    · simp at h2
    · exact h2
  · intro a ha
    rcases serverGen_recv cfg.server _ _ _ _ [] nb1 servers nb2 hsrv a ha with h2 | h2
    · simp at h2
    · exact h2

/-- Claim C3, witness: the amended theorem at a concrete full topology. -/
theorem C3_witness :
    buildModel cfgFull = .ok (buildD cfgFull) ∧
    ((∀ a ∈ (buildD cfgFull).drones,
        getA (buildD cfgFull).packet_recv a.id = some a.packet_recv) ∧
     (∀ a ∈ (buildD cfgFull).chat_clients,
        getA (buildD cfgFull).packet_recv a.id = some a.packet_recv) ∧
     (∀ a ∈ (buildD cfgFull).media_clients,
        getA (buildD cfgFull).packet_recv a.id = some a.packet_recv) ∧
     (∀ a ∈ (buildD cfgFull).communication_servers,
        getA (buildD cfgFull).packet_recv a.id = some a.packet_recv)) :=
  ⟨rfl, C3_consumer_cloned cfgFull (buildD cfgFull) rfl⟩

/-- Claim C4: the code has no minimum-network-size check, contradicting the
doc comment on `run()` ("Panics if the configuration contains fewer than 10
drones") and the spec: a three-drone topology boots successfully, creates one
inbound packet channel per node, and spawns its threads. -/
theorem C4_no_minimum_size_check :
    buildOk cfgThreeDrones = true ∧
    (buildD cfgThreeDrones).packet_recv.length = 3 ∧
    spawnedUnits cfgThreeDrones ≠ [] := by
  decide

/-- Claim C5: a topology with more drones than the ten registered factory
entries aborts the build with `No factory defined` at the first drone with no
registered constructor (index 10 in declaration order), before any thread is
spawned, so no partially built network reaches the orchestrator. -/
theorem C5_factory_exhaustion (cfg : Config) (h : 10 < cfg.drone.length) :
    ∃ d0, cfg.drone[10]? = some d0 ∧
      buildModel cfg = .error (.noFactoryDefined d0.id) ∧
      spawnedUnits cfg = [] := by
  obtain ⟨d0, hget, herr⟩ := droneGen_over cfg.drone ⟨0⟩ (dOutOf cfg).command_recv
    (cOutOf cfg).packet_send (cOutOf cfg).packet_recv (dOutOf cfg).command_send
    0 [] [] (fun d hd => dronePresence cfg d hd) (by omega) (by omega)
  have hbm : buildModel cfg = .error (.noFactoryDefined d0.id) := by
    simp only [buildModel]
    rw [herr]
  exact ⟨d0, hget, hbm, by simp [spawnedUnits, hbm]⟩

/-- Claim C5, witness: eleven declared drones abort the build at drone 11. -/
theorem C5_witness :
    10 < cfgElevenDrones.drone.length ∧
    (∃ d0, cfgElevenDrones.drone[10]? = some d0 ∧
      buildModel cfgElevenDrones = .error (.noFactoryDefined d0.id) ∧
      spawnedUnits cfgElevenDrones = []) :=
  ⟨by decide, C5_factory_exhaustion cfgElevenDrones (by decide)⟩

/-- Claim C6, counterexample: `cfgDupAdj` is a valid topology (every neighbor
reference names a declared node) in which drone 1 lists neighbor 2 twice; the
duplicate `HashMap` insert overwrites, so the actors retain 2 outbound
producer registrations while the adjacency lists sum to 3. -/
theorem C6_counterexample :
    validTopology cfgDupAdj ∧ buildOk cfgDupAdj = true ∧
    sumAdjLens cfgDupAdj = 3 ∧
    totalOutboundRegistrations (buildD cfgDupAdj) = 2 := by
  decide

/-- Claim C6, amended: for every valid topology with pairwise-distinct node
ids and duplicate-free adjacency lists whose build succeeds, channel creation
yields exactly one inbound consumer per declared node (the receiver-table
keys are exactly the declared ids, each once), and the total number of
outbound producer registrations across all constructed actors equals the sum
of the adjacency-list lengths. -/
theorem C6_channel_counts (cfg : Config) (r : BuildResult)
    (hnd : (declaredIds cfg).Nodup) (hval : validTopology cfg)
    (hadj : nodupAdjacency cfg) (h : buildModel cfg = .ok r) :
    ((keysA r.packet_recv).Nodup ∧
      (∀ i, i ∈ keysA r.packet_recv ↔ i ∈ declaredIds cfg)) ∧
    totalOutboundRegistrations r = sumAdjLens cfg := by
  obtain ⟨drones, dh, chats, medias, nb1, servers, nb2, hd, hc, hsrv, hr⟩ :=
    buildModel_ok_inv h
  obtain ⟨k1, k2, k3, k4, k5⟩ := channelTables_keys hnd
  have hperm : (declaredIds cfg).Perm
      (cfg.drone.map (·.id) ++ cfg.server.map (·.id) ++ cfg.client.map (·.id)) := by
    unfold declaredIds
    rw [List.append_assoc, List.append_assoc]
    exact List.Perm.append_left _ List.perm_append_comm
  subst hr
  constructor
  · constructor
    · show (keysA (cOutOf cfg).packet_recv).Nodup
      rw [k2]
      exact hperm.nodup hnd
    · intro i
      show i ∈ keysA (cOutOf cfg).packet_recv ↔ i ∈ declaredIds cfg
      rw [k2]
      exact hperm.mem_iff.symm
  · have hpresm : ∀ nb, nb ∈ declaredIds cfg →
        (getA (cOutOf cfg).packet_send nb).isSome = true := by
      intro nb hnb
      rw [getA_isSome_iff, k1]
      exact hperm.mem_iff.mp hnb
    have hdr := droneGen_lengths cfg.drone _ _ _ _ _ 0 [] [] drones dh hadj.1
      (fun d hdm nb hnb => hpresm nb (hval.1 d hdm nb hnb)) hd
    have hcl := clientGen_sumlen cfg.client (halfOf cfg) _ _ _ _ _ _ 0 [] [] _
      chats medias nb1 hadj.2.1 hc
    have hsv := serverGen_sumlen cfg.server _ _ _ _ [] nb1 servers nb2
      hadj.2.2 hsrv
    have e1 : (drones.map (·.packet_send.length)).sum
        = (cfg.drone.map (·.connected_node_ids.length)).sum := by
      rw [hdr]; simp
    have e2 : (chats.map (·.packet_send.length)).sum
        + (medias.map (·.packet_send.length)).sum
        = (cfg.client.map (·.connected_drone_ids.length)).sum := by
      simpa using hcl
    have e3 : (servers.map (·.packet_send.length)).sum
        = (cfg.server.map (·.connected_drone_ids.length)).sum := by
      simpa using hsv
    show (drones.map (·.packet_send.length)).sum
        + (chats.map (·.packet_send.length)).sum
        + (medias.map (·.packet_send.length)).sum
        + (servers.map (·.packet_send.length)).sum = sumAdjLens cfg
    unfold sumAdjLens
    omega

/-- Claim C6, witness: the amended theorem at a concrete full topology, whose
22 adjacency entries are reflected one-to-one in the actors' sender maps. -/
theorem C6_witness :
    (declaredIds cfgFull).Nodup ∧ validTopology cfgFull ∧
    nodupAdjacency cfgFull ∧
    (((keysA (buildD cfgFull).packet_recv).Nodup ∧
      (∀ i, i ∈ keysA (buildD cfgFull).packet_recv ↔ i ∈ declaredIds cfgFull)) ∧
      totalOutboundRegistrations (buildD cfgFull) = sumAdjLens cfgFull) :=
  ⟨by decide, by decide, by decide,
    C6_channel_counts cfgFull (buildD cfgFull) (by decide) (by decide)
      (by decide) rfl⟩

/-- Claim C7: the client role partition is deterministic and
order-preserving: the first `n / 2` declared clients (n the number of
declared clients) become chat clients and the rest media clients, in
declaration order; and any second build of the same configuration yields the
same assignment. -/
theorem C7_client_partition (cfg : Config) (r : BuildResult)
    (h : buildModel cfg = .ok r) :
    r.chat_clients.map (·.id)
      = (cfg.client.take (cfg.client.length / 2)).map (·.id) ∧
    r.media_clients.map (·.id)
      = (cfg.client.drop (cfg.client.length / 2)).map (·.id) ∧
    (∀ r2, buildModel cfg = .ok r2 →
      r2.chat_clients.map (·.id) = r.chat_clients.map (·.id) ∧
      r2.media_clients.map (·.id) = r.media_clients.map (·.id)) := by
  obtain ⟨drones, dh, chats, medias, nb1, servers, nb2, hd, hc, hsrv, hr⟩ :=
    buildModel_ok_inv h
  obtain ⟨r1, r2⟩ := clientGen_ids cfg.client (halfOf cfg) _ _ _ _ _ _ 0 [] [] _
    chats medias nb1 hc
  subst hr
  refine ⟨?_, ?_, ?_⟩
  · show chats.map (·.id) = _
    rw [r1]
    simp [halfOf]
  · show medias.map (·.id) = _
    rw [r2]
    simp [halfOf]
  · intro r2' h2
    rw [h] at h2
    injection h2 with h3
    rw [← h3]
    exact ⟨rfl, rfl⟩

/-- Claim C7, witness: on `cfgFull` (three clients) the first client becomes
the chat client and the remaining two the media clients. -/
theorem C7_witness :
    buildModel cfgFull = .ok (buildD cfgFull) ∧
    ((buildD cfgFull).chat_clients.map (·.id)
        = (cfgFull.client.take (cfgFull.client.length / 2)).map (·.id) ∧
      (buildD cfgFull).media_clients.map (·.id)
        = (cfgFull.client.drop (cfgFull.client.length / 2)).map (·.id) ∧
      (∀ r2, buildModel cfgFull = .ok r2 →
        r2.chat_clients.map (·.id) = (buildD cfgFull).chat_clients.map (·.id) ∧
        r2.media_clients.map (·.id) = (buildD cfgFull).media_clients.map (·.id))) :=
  ⟨rfl, C7_client_partition cfgFull (buildD cfgFull) rfl⟩

/-- Claim C8: after a successful build on a duplicate-free id space, the
controller's directory (drone, chat-client, media-client and server sender
tables) has exactly one entry per declared node, every declared id is
addressable through it, and no receiver the controller holds is a consumer
end of any node's inbound packet channel (the directory entries themselves
are sender pairs by construction). -/
theorem C8_control_directory (cfg : Config) (r : BuildResult)
    (hnd : (declaredIds cfg).Nodup) (h : buildModel cfg = .ok r) :
    directoryKeys r = declaredIds cfg ∧
    (∀ i ∈ declaredIds cfg, (lookupDirectory r i).isSome = true) ∧
    (∀ p ∈ r.packet_recv, ∀ rc ∈ controllerReceivers r, rc.ch ≠ p.2.ch) := by
  obtain ⟨drones, dh, chats, medias, nb1, servers, nb2, hd, hc, hsrv, hr⟩ :=
    buildModel_ok_inv h
  obtain ⟨k1, k2, k3, k4, k5⟩ := channelTables_keys hnd
  obtain ⟨hdrn, _, _, _, _, _⟩ := declared_nodup_parts hnd
  have hdh : keysA dh = cfg.drone.map (·.id) := by
    have := droneGen_dh_keys cfg.drone _ _ _ _ _ 0 [] [] drones dh hdrn
      (by simp [keysA]) hd
    simpa using this
  subst hr
  have hkeys : keysA dh ++ keysA (cOutOf cfg).cclient_send
      ++ keysA (cOutOf cfg).mclient_send
      ++ keysA (sOutOf cfg).comm_server_send = declaredIds cfg := by
    rw [hdh, k3, k4, k5]
    unfold declaredIds
    congr 1
    rw [List.append_assoc, ← List.map_append, List.take_append_drop]
  refine ⟨hkeys, ?_, ?_⟩
  · intro i hi
    show (getA (dh ++ (cOutOf cfg).cclient_send ++ (cOutOf cfg).mclient_send
      ++ (sOutOf cfg).comm_server_send) i).isSome = true
    rw [getA_isSome_iff, keysA_append, keysA_append, keysA_append, hkeys]
    exact hi
  · intro p hp rc hrc
    have hb := packetRecv_bounds cfg p hp
    have hd1 := dOut_ctr cfg
    have hs1 := sOut_ctr cfg
    have hc1 := cOut_ctr cfg
    rw [hd1, hs1] at hb
    simp only [controllerReceivers, List.mem_cons, List.not_mem_nil, or_false] at hrc
    rcases hrc with h1 | h1 | h1 | h1 | h1 <;> subst h1 <;>
      simp only [hd1, hs1, hc1] <;>
      rcases hb with ⟨b1, b2, b3⟩ | ⟨b1, b2, b3⟩ | ⟨b1, b2, b3⟩ <;> omega

/-- Claim C8, witness: the directory facts at a concrete full topology. -/
theorem C8_witness :
    (declaredIds cfgFull).Nodup ∧
    (directoryKeys (buildD cfgFull) = declaredIds cfgFull ∧
      (∀ i ∈ declaredIds cfgFull,
        (lookupDirectory (buildD cfgFull) i).isSome = true) ∧
      (∀ p ∈ (buildD cfgFull).packet_recv,
        ∀ rc ∈ controllerReceivers (buildD cfgFull), rc.ch ≠ p.2.ch)) :=
  ⟨by decide, C8_control_directory cfgFull (buildD cfgFull) (by decide) rfl⟩

/-- Claim C9: when the build succeeds, the orchestration trace contains
exactly one initial topology event carrying the full declared node lists, and
that event is sent immediately before the foreground GUI event loop starts —
in particular before the loop, after all spawns. -/
theorem C9_topology_event (cfg : Config) (h : buildOk cfg = true) :
    (bootTrace cfg).count (Step.sendTopology cfg.drone cfg.client cfg.server) = 1 ∧
    ∃ pre, bootTrace cfg
      = pre ++ [Step.sendTopology cfg.drone cfg.client cfg.server, Step.guiLoop] := by
  cases hb : buildModel cfg with
  | error e => simp [buildOk, hb] at h
  | ok r =>
      have htrace : bootTrace cfg = spawnSteps r
          ++ [Step.sendTopology cfg.drone cfg.client cfg.server, Step.guiLoop] := by
        simp [bootTrace, hb]
      constructor
      · rw [htrace, List.count_append]
        have h0 : (spawnSteps r).count
            (Step.sendTopology cfg.drone cfg.client cfg.server) = 0 := by
          rw [List.count_eq_zero]
          simp [spawnSteps]
        have h1 : ([Step.sendTopology cfg.drone cfg.client cfg.server,
            Step.guiLoop] : List Step).count
            (Step.sendTopology cfg.drone cfg.client cfg.server) = 1 := by
          rw [List.count_cons_self, List.count_eq_zero.mpr (by simp)]
        rw [h0, h1]
      · exact ⟨spawnSteps r, htrace⟩

/-- Claim C9, witness: the topology event on a concrete full topology. -/
theorem C9_witness :
    buildOk cfgFull = true ∧
    ((bootTrace cfgFull).count
        (Step.sendTopology cfgFull.drone cfgFull.client cfgFull.server) = 1 ∧
      ∃ pre, bootTrace cfgFull = pre
        ++ [Step.sendTopology cfgFull.drone cfgFull.client cfgFull.server,
            Step.guiLoop]) :=
  ⟨by decide, C9_topology_event cfgFull (by decide)⟩

/-- Claim C10: every declared server is constructed as the
`CommunicationServer` variant (one `CommServerActor` per declared server, in
order), and every constructed server holds a clone of the single shared
server-event receiver that the `SimulationController` also receives — that
channel has all the servers plus the controller as simultaneous consumers. -/
theorem C10_shared_server_event_receiver (cfg : Config) (r : BuildResult)
    (h : buildModel cfg = .ok r) :
    r.communication_servers.map (·.id) = cfg.server.map (·.id) ∧
    ∀ a ∈ r.communication_servers,
      a.comm_server_recv = r.controller.comm_server_event_recv := by
  obtain ⟨drones, dh, chats, medias, nb1, servers, nb2, hd, hc, hsrv, hr⟩ :=
    buildModel_ok_inv h
  subst hr
  constructor
  · have := serverGen_ids cfg.server _ _ _ _ [] nb1 servers nb2 hsrv
    simpa using this
  · intro a ha
    have hev := serverGen_evrecv cfg.server _ _ _ _ [] nb1 servers nb2
      ⟨(dOutOf cfg).ctr⟩ (commServerRecv_values cfg) hsrv a ha
    rcases hev with h2 | h2
    · simp at h2
    · exact h2

/-- Claim C10, witness: on `cfgFull` the one declared server is built as a
communication server and shares the event receiver with the controller. -/
theorem C10_witness :
    buildModel cfgFull = .ok (buildD cfgFull) ∧
    ((buildD cfgFull).communication_servers.map (·.id)
        = cfgFull.server.map (·.id) ∧
      ∀ a ∈ (buildD cfgFull).communication_servers,
        a.comm_server_recv = (buildD cfgFull).controller.comm_server_event_recv) :=
  ⟨rfl, C10_shared_server_event_receiver cfgFull (buildD cfgFull) rfl⟩

end NetInit
